import Mathlib

/-! nostr_dht: relay pool manager and protocol codec.

A shallow embedding of `src/nostr_dht.js` and the properties of its
specification.  JavaScript strings are sequences of UTF-16 code units,
JavaScript values that the code handles (decoded JSON and `undefined`) are the
inductive type `Val`, module-level mutable state is passed explicitly, and
callbacks (`handler`, `send`, `close`) are recorded in call logs.  The platform
functions the code calls (`JSON.stringify`, `JSON.parse`, `Map`, `WebSocket`
events) are embedded from their specifications; the digest, the signature, the
clock and the random source are parameters.
-/

namespace NostrDht

/-! ## Strings and values -/

/-- A JavaScript string, as its sequence of UTF-16 code units. -/
abbrev JSString := List Nat

/-- The code units of an ASCII string literal of the source. -/
def lit (s : String) : JSString := s.toList.map Char.toNat

/-- The errors the embedded code can raise. -/
inductive JSError where
  | typeError
  | syntaxError
  | handlerError
  deriving DecidableEq, Repr

/-- The JavaScript values the code handles: what `JSON.parse` returns, and `undefined`.
A number is an integer (exact for doubles of magnitude at most 2^53, with `-0` taken as `0`);
an object is the list of its own properties. -/
inductive Val where
  | undefined
  | null
  | bool (b : Bool)
  | num (n : Int)
  | str (s : JSString)
  | arr (xs : List Val)
  | obj (ps : List (JSString × Val))

/-- The digit characters of `Number.prototype.toString(radix)`: `0`-`9`, then `a`-`z`. -/
def digitUnit (d : Nat) : Nat := if d < 10 then 48 + d else 87 + d

/-- The digits of `n` in base `radix`, most significant first; `fuel` bounds the number of
digits, and any fuel above `n` gives the same digits for a radix of 2 or more. -/
def natToRadix (radix : Nat) : Nat → Nat → JSString
  | 0, _ => []
  | fuel + 1, n =>
    if n < radix then [digitUnit n]
    else natToRadix radix fuel (n / radix) ++ [digitUnit (n % radix)]

/-- `n.toString(radix)` for a non-negative integer `n`. -/
def natToString (radix n : Nat) : JSString := natToRadix radix (n + 1) n

/-- `s.padStart(target, pad)`. -/
def padStart (target : Nat) (pad s : JSString) : JSString :=
  if s.length < target ∧ pad ≠ [] then
    ((List.replicate (target - s.length) pad).flatten.take (target - s.length)) ++ s
  else s

/-! ## utils -/

/-- `utils.bufferToHex`: `buffer.reduce((a, c) => a + c.toString(16).padStart(2, '0'), '')`. -/
def bufferToHex (buffer : List Nat) : JSString :=
  buffer.foldl (fun a c => a ++ padStart 2 (lit "0") (natToString 16 c)) []

/-- The `charSet` of `utils.generateRandomId`. -/
def charSet : JSString := lit "0123456789AaBbCcDdEeFfGgHhIiJjKkLlMmNnOoPpQqRrSsTtUuVvWwXxYyZz"

/-- The random source: `draw k` is the value of `Math.floor(Math.random() * charSet.length)` at the
`k`-th call of `Math.random`; it lies in `0..61` because `Math.random()` lies in `[0, 1)`. -/
abbrev RandomSource := Nat → Fin 62

/-- The loop of `utils.generateRandomId`: fills the `n` cells left to right, one draw per cell,
starting at draw number `pos`.  Every draw is an index of `charSet`, so the default of the
lookup is never used. -/
def randomUnits (draw : RandomSource) : Nat → Nat → JSString
  | 0, _ => []
  | n + 1, pos => (charSet[(draw pos).val]?).getD 0 :: randomUnits draw n (pos + 1)

/-- `utils.generateRandomId(n)`: the id, and the number of draws consumed so far. -/
def generateRandomId (draw : RandomSource) (pos n : Nat) : JSString × Nat :=
  (randomUnits draw n pos, pos + n)

/-! ## Property access and comparison on values -/

/-- The own property `k` of an object, `undefined` when absent. -/
def getProp (ps : List (JSString × Val)) (k : JSString) : Val :=
  match ps.find? (fun p => p.1 == k) with
  | some p => p.2
  | none => .undefined

/-- The expression `v[i]`: a `TypeError` on `null` and `undefined`, `undefined` on a boolean or a
number, the one-unit string at `i` on a string, the element at `i` on an array, the property
named by the decimal digits of `i` on an object. -/
def Val.index (v : Val) (i : Nat) : Except JSError Val :=
  match v with
  | .undefined => .error .typeError
  | .null => .error .typeError
  | .bool _ => .ok .undefined
  | .num _ => .ok .undefined
  | .str s => .ok (match s[i]? with
      | some u => .str [u]
      | none => .undefined)
  | .arr xs => .ok (match xs[i]? with
      | some x => x
      | none => .undefined)
  | .obj ps => .ok (getProp ps (natToString 10 i))

/-- The expression `v === s` for a string `s`. -/
def Val.strictEqStr (v : Val) (s : JSString) : Bool :=
  match v with
  | .str t => t == s
  | _ => false

/-! ## Map objects with string keys -/

/-- `Map.prototype.set`: the value of an existing key is replaced in place, a new key is
appended (a `Map` iterates in insertion order). -/
def mapSet {V : Type} (m : List (JSString × V)) (k : JSString) (v : V) : List (JSString × V) :=
  if m.any (fun e => e.1 == k) then m.map (fun e => if e.1 == k then (k, v) else e)
  else m ++ [(k, v)]

/-- `Map.prototype.get`. -/
def mapGet {V : Type} (m : List (JSString × V)) (k : JSString) : Option V :=
  (m.find? (fun e => e.1 == k)).map Prod.snd

/-! ## connectionManager.passToHandlers -/

/-- What one run of `passToHandlers` did: the handler calls made, in order, each with the
subscription id it was registered under and its argument, and the error that ended the run,
if one was raised. -/
structure Dispatch (H : Type) where
  calls : List (JSString × H × Val)
  error : Option JSError

/-- `connectionManager.passToHandlers(msg)`: the `forEach` over `connectionManager.handlers`.
`throws h arg` tells whether the call `h(arg)` raises; a raised error ends the loop. -/
def passToHandlers {H : Type} (throws : H → Val → Bool) :
    List (JSString × H) → Val → Dispatch H
  | [], _ => ⟨[], none⟩
  | (subId, handler) :: rest, msg =>
    match msg.index 0 with
    | .error e => ⟨[], some e⟩
    | .ok m0 =>
      if m0.strictEqStr (lit "EVENT") then
        match msg.index 1 with
        | .error e => ⟨[], some e⟩
        | .ok m1 =>
          if m1.strictEqStr subId then
            match msg.index 2 with
            | .error e => ⟨[], some e⟩
            | .ok m2 =>
              if throws handler m2 then ⟨[(subId, handler, m2)], some .handlerError⟩
              else
                let r := passToHandlers throws rest msg
                ⟨(subId, handler, m2) :: r.calls, r.error⟩
          else passToHandlers throws rest msg
      else passToHandlers throws rest msg

/-! ## JSON.stringify -/

/-- `Number.prototype.toString()` of an integer (of magnitude below 10^21, where JavaScript
prints every digit). -/
def intToString (n : Int) : JSString :=
  if n < 0 then 45 :: natToString 10 n.natAbs else natToString 10 n.natAbs

/-- The code unit is a leading (high) surrogate. -/
def isHighSurrogate (u : Nat) : Bool := decide (55296 ≤ u ∧ u ≤ 56319)

/-- The code unit is a trailing (low) surrogate. -/
def isLowSurrogate (u : Nat) : Bool := decide (56320 ≤ u ∧ u ≤ 57343)

/-- `UnicodeEscape`: a backslash, `u`, and four lowercase hexadecimal digits. -/
def unicodeEscape (u : Nat) : JSString := [92, 117] ++ padStart 4 (lit "0") (natToString 16 u)

/-- How `QuoteJSONString` writes one code unit that is not part of a surrogate pair: the
two-character escapes for backspace, tab, line feed, form feed, carriage return, the quote and
the backslash; a unicode escape for the other control characters and for a lone surrogate;
the unit itself otherwise. -/
def quoteUnit (u : Nat) : JSString :=
  if u = 8 then [92, 98]
  else if u = 9 then [92, 116]
  else if u = 10 then [92, 110]
  else if u = 12 then [92, 102]
  else if u = 13 then [92, 114]
  else if u = 34 then [92, 34]
  else if u = 92 then [92, 92]
  else if u < 32 then unicodeEscape u
  else if isHighSurrogate u || isLowSurrogate u then unicodeEscape u
  else [u]

/-- The body of `QuoteJSONString`: a high surrogate followed by a low surrogate is one code
point and is copied; every other unit goes through `quoteUnit`. -/
def quoteUnits : JSString → JSString
  | [] => []
  | [u] => quoteUnit u
  | u :: v :: rest =>
    if isHighSurrogate u && isLowSurrogate v then u :: v :: quoteUnits rest
    else quoteUnit u ++ quoteUnits (v :: rest)

/-- `QuoteJSONString`. -/
def quoteJSONString (s : JSString) : JSString := [34] ++ quoteUnits s ++ [34]

/-- The strings of a list joined by commas. -/
def joinComma : List JSString → JSString
  | [] => []
  | [s] => s
  | s :: t :: rest => s ++ [44] ++ joinComma (t :: rest)

mutual
/-- `SerializeJSONProperty` without indentation: `none` stands for `undefined`. -/
def serializeProperty : Val → Option JSString
  | .undefined => none
  | .null => some (lit "null")
  | .bool true => some (lit "true")
  | .bool false => some (lit "false")
  | .num n => some (intToString n)
  | .str s => some (quoteJSONString s)
  | .arr xs => some ([91] ++ joinComma (serializeElements xs) ++ [93])
  | .obj ps => some ([123] ++ joinComma (serializeMembers ps) ++ [125])
/-- `SerializeJSONArray`: an element that serializes to `undefined` is written `null`. -/
def serializeElements : List Val → List JSString
  | [] => []
  | x :: xs =>
    (match serializeProperty x with
      | some s => s
      | none => lit "null") :: serializeElements xs
/-- `SerializeJSONObject`: a property whose value serializes to `undefined` is left out. -/
def serializeMembers : List (JSString × Val) → List JSString
  | [] => []
  | (k, v) :: ps =>
    match serializeProperty v with
    | some s => (quoteJSONString k ++ [58] ++ s) :: serializeMembers ps
    | none => serializeMembers ps
end

/-- `JSON.stringify(value)`; `none` stands for the result `undefined`. -/
def jsonStringify (v : Val) : Option JSString := serializeProperty v

/-! ## JSON.parse -/

/-- The result of a parsing function: a value and the text left, a `SyntaxError`, a text
outside the modelled fragment (a number with a fraction, an exponent or a magnitude above
2^53), or not enough fuel. -/
inductive Parsed (α : Type) where
  | ok (value : α) (rest : JSString)
  | syntaxError
  | unmodelled
  | outOfFuel

/-- JSON white space: space, tab, line feed, carriage return. -/
def isWs (u : Nat) : Bool := u == 32 || u == 9 || u == 10 || u == 13

/-- The text after its leading white space. -/
def skipWs : JSString → JSString
  | [] => []
  | u :: s => if isWs u then skipWs s else u :: s

/-- The text after the literal `p`, when it starts with `p`. -/
def dropLit : JSString → JSString → Option JSString
  | [], s => some s
  | _ :: _, [] => none
  | p :: ps, u :: s => if p = u then dropLit ps s else none

/-- The code unit is a decimal digit. -/
def isDigit (u : Nat) : Bool := decide (48 ≤ u ∧ u ≤ 57)

/-- The value of a hexadecimal digit, upper or lower case. -/
def hexVal (u : Nat) : Option Nat :=
  if 48 ≤ u ∧ u ≤ 57 then some (u - 48)
  else if 97 ≤ u ∧ u ≤ 102 then some (u - 87)
  else if 65 ≤ u ∧ u ≤ 70 then some (u - 55)
  else none

/-- Where the scan of a string literal stands: between characters, after a backslash, or
inside a unicode escape with `k` digits read and value `acc` so far. -/
inductive StrState where
  | normal
  | escape
  | hex (k : Nat) (acc : Nat)

/-- The scan of a string literal after its opening quote: the decoded units and the text
after the closing quote; `none` on an unescaped control character, an unknown escape or a
missing closing quote. -/
def parseStringBody : StrState → JSString → JSString → Option (JSString × JSString)
  | _, _, [] => none
  | .normal, out, u :: s =>
    if u = 34 then some (out, s)
    else if u = 92 then parseStringBody .escape out s
    else if u < 32 then none
    else parseStringBody .normal (out ++ [u]) s
  | .escape, out, u :: s =>
    if u = 34 then parseStringBody .normal (out ++ [34]) s
    else if u = 92 then parseStringBody .normal (out ++ [92]) s
    else if u = 47 then parseStringBody .normal (out ++ [47]) s
    else if u = 98 then parseStringBody .normal (out ++ [8]) s
    else if u = 102 then parseStringBody .normal (out ++ [12]) s
    else if u = 110 then parseStringBody .normal (out ++ [10]) s
    else if u = 114 then parseStringBody .normal (out ++ [13]) s
    else if u = 116 then parseStringBody .normal (out ++ [9]) s
    else if u = 117 then parseStringBody (.hex 0 0) out s
    else none
  | .hex k acc, out, u :: s =>
    match hexVal u with
    | none => none
    | some d =>
      if k = 3 then parseStringBody .normal (out ++ [acc * 16 + d]) s
      else parseStringBody (.hex (k + 1) (acc * 16 + d)) out s

/-- A string literal after its opening quote. -/
def parseString (s : JSString) : Parsed JSString :=
  match parseStringBody .normal [] s with
  | some (str, rest) => .ok str rest
  | none => .syntaxError

/-- The digits at the head of the text, accumulated onto `acc`. -/
def parseDigits : Nat → JSString → Nat × JSString
  | acc, [] => (acc, [])
  | acc, u :: s => if isDigit u then parseDigits (acc * 10 + (u - 48)) s else (acc, u :: s)

/-- The largest magnitude at which every integer is a double: 2^53. -/
def maxSafe : Nat := 9007199254740992

/-- The integer part of a number was read as `n`: a fraction or an exponent follows, or the
magnitude is above 2^53 (outside the model), or the number is the integer. -/
def finishNumber (neg : Bool) (n : Nat) (rest : JSString) : Parsed Val :=
  match rest with
  | c :: _ =>
    if c = 46 ∨ c = 101 ∨ c = 69 then .unmodelled
    else if n ≤ maxSafe then .ok (.num (if neg then -(n : Int) else (n : Int))) rest
    else .unmodelled
  | [] =>
    if n ≤ maxSafe then .ok (.num (if neg then -(n : Int) else (n : Int))) rest
    else .unmodelled

/-- A number after its optional minus sign: `0`, or a non-zero digit and more digits. -/
def parseNumberBody (neg : Bool) : JSString → Parsed Val
  | [] => .syntaxError
  | u :: s =>
    if u = 48 then finishNumber neg 0 s
    else if isDigit u then finishNumber neg (parseDigits (u - 48) s).1 (parseDigits (u - 48) s).2
    else .syntaxError

/-- A number. -/
def parseNumber : JSString → Parsed Val
  | [] => .syntaxError
  | u :: s => if u = 45 then parseNumberBody true s else parseNumberBody false (u :: s)

/-- The object whose properties are created in the order of `members`: a repeated name keeps
its first position and takes the last value.  (The list is in creation order; JavaScript
enumerates integer-like names first, and no code here enumerates a parsed object.) -/
def buildObject (members : List (JSString × Val)) : List (JSString × Val) :=
  members.foldl (fun o m => mapSet o m.1 m.2) []

mutual
/-- A JSON value, white space before it allowed. -/
def parseValue : Nat → JSString → Parsed Val
  | 0, _ => .outOfFuel
  | fuel + 1, s =>
    match skipWs s with
    | [] => .syntaxError
    | u :: rest =>
      if u = 110 then
        match dropLit (lit "ull") rest with
        | some r => .ok .null r
        | none => .syntaxError
      else if u = 116 then
        match dropLit (lit "rue") rest with
        | some r => .ok (.bool true) r
        | none => .syntaxError
      else if u = 102 then
        match dropLit (lit "alse") rest with
        | some r => .ok (.bool false) r
        | none => .syntaxError
      else if u = 34 then
        match parseString rest with
        | .ok str r => .ok (.str str) r
        | .syntaxError => .syntaxError
        | .unmodelled => .unmodelled
        | .outOfFuel => .outOfFuel
      else if u = 91 then
        match skipWs rest with
        | [] => .syntaxError
        | c :: r =>
          if c = 93 then .ok (.arr []) r
          else
            match parseElements fuel (c :: r) with
            | .ok xs r2 => .ok (.arr xs) r2
            | .syntaxError => .syntaxError
            | .unmodelled => .unmodelled
            | .outOfFuel => .outOfFuel
      else if u = 123 then
        match skipWs rest with
        | [] => .syntaxError
        | c :: r =>
          if c = 125 then .ok (.obj []) r
          else
            match parseMembers fuel (c :: r) with
            | .ok ps r2 => .ok (.obj (buildObject ps)) r2
            | .syntaxError => .syntaxError
            | .unmodelled => .unmodelled
            | .outOfFuel => .outOfFuel
      else parseNumber (u :: rest)
/-- The elements of a non-empty array and its closing bracket. -/
def parseElements : Nat → JSString → Parsed (List Val)
  | 0, _ => .outOfFuel
  | fuel + 1, s =>
    match parseValue fuel s with
    | .ok v r =>
      (match skipWs r with
        | [] => .syntaxError
        | c :: r2 =>
          if c = 93 then .ok [v] r2
          else if c = 44 then
            match parseElements fuel r2 with
            | .ok vs r3 => .ok (v :: vs) r3
            | .syntaxError => .syntaxError
            | .unmodelled => .unmodelled
            | .outOfFuel => .outOfFuel
          else .syntaxError)
    | .syntaxError => .syntaxError
    | .unmodelled => .unmodelled
    | .outOfFuel => .outOfFuel
/-- The members of a non-empty object and its closing brace. -/
def parseMembers : Nat → JSString → Parsed (List (JSString × Val))
  | 0, _ => .outOfFuel
  | fuel + 1, s =>
    match skipWs s with
    | [] => .syntaxError
    | q :: s1 =>
      if q = 34 then
        match parseString s1 with
        | .ok key s2 =>
          (match skipWs s2 with
            | [] => .syntaxError
            | colon :: s3 =>
              if colon = 58 then
                match parseValue fuel s3 with
                | .ok v r =>
                  (match skipWs r with
                    | [] => .syntaxError
                    | c :: r2 =>
                      if c = 125 then .ok [(key, v)] r2
                      else if c = 44 then
                        match parseMembers fuel r2 with
                        | .ok ms r3 => .ok ((key, v) :: ms) r3
                        | .syntaxError => .syntaxError
                        | .unmodelled => .unmodelled
                        | .outOfFuel => .outOfFuel
                      else .syntaxError)
                | .syntaxError => .syntaxError
                | .unmodelled => .unmodelled
                | .outOfFuel => .outOfFuel
              else .syntaxError)
        | .syntaxError => .syntaxError
        | .unmodelled => .unmodelled
        | .outOfFuel => .outOfFuel
      else .syntaxError
end

/-- `JSON.parse(text)`: one value, with white space around it and nothing else. -/
def jsonParse (text : JSString) : Parsed Val :=
  match parseValue (2 * text.length + 2) text with
  | .ok v rest =>
    (match skipWs rest with
      | [] => .ok v []
      | _ :: _ => .syntaxError)
  | .syntaxError => .syntaxError
  | .unmodelled => .unmodelled
  | .outOfFuel => .outOfFuel

/-! ## keyManager and eventManager -/

/-- The property read `v.k` for the names the code reads (`pubkey`, `created_at`, `kind`,
`tags`, `content`, `id`): a `TypeError` on `null` and `undefined`, the own property on an object,
and `undefined` on a boolean, a number, a string or an array, which have no property of these
names. -/
def Val.field (v : Val) (k : JSString) : Except JSError Val :=
  match v with
  | .undefined => .error .typeError
  | .null => .error .typeError
  | .obj ps => .ok (getProp ps k)
  | _ => .ok .undefined

/-- `keyManager.generateMessageHash(content)`.  `digest text` stands for the bytes of
`crypto.subtle.digest('SHA-256', new TextEncoder().encode(text))`. -/
def generateMessageHash (digest : JSString → List Nat) (content : Val) :
    Except JSError JSString := do
  let pubkey ← content.field (lit "pubkey")
  let createdAt ← content.field (lit "created_at")
  let kind ← content.field (lit "kind")
  let tags ← content.field (lit "tags")
  let body ← content.field (lit "content")
  let serializedContent := jsonStringify (.arr [.num 0, pubkey, createdAt, kind, tags, body])
  pure (bufferToHex (digest (serializedContent.getD [])))

/-- `keyManager.signMessage(messageHash, keyPair)`.  `sign messageHash` stands for the bytes of
`schnorr.sign(messageHash, keyPair.privateKey)`. -/
def signMessage (sign : JSString → List Nat) (messageHash : JSString) : JSString :=
  bufferToHex (sign messageHash)

/-- The object `eventContent` of `eventManager.generateSendEvent`; `now` is `Date.now()`, an
integer number of milliseconds, so `Math.floor(now / 1000)` is the floor of the quotient. -/
def eventContent (publicKey : JSString) (now : Int) (message tag topic : JSString) :
    List (JSString × Val) :=
  buildObject [(lit "kind", .num 29333), (lit "content", .str message),
    (lit "pubkey", .str publicKey), (lit "created_at", .num (Int.fdiv now 1000)),
    (lit "tags", .arr [.arr [.str tag, .str topic]])]

/-- The object `{...eventContent, id, sig: signature}`. -/
def signedEvent (content : List (JSString × Val)) (id signature : JSString) :
    List (JSString × Val) :=
  buildObject (content ++ [(lit "id", .str id), (lit "sig", .str signature)])

/-- `eventManager.generateSendEvent(message, tag, topic)`, with `publicKey` for
`connectionManager.keyPair.publicKey`. -/
def generateSendEvent (digest sign : JSString → List Nat) (publicKey : JSString) (now : Int)
    (message tag topic : JSString) : Except JSError JSString := do
  let content := eventContent publicKey now message tag topic
  let id ← generateMessageHash digest (.obj content)
  let signature := signMessage sign id
  pure ((jsonStringify (.arr [.str (lit "EVENT"), .obj (signedEvent content id signature)])).getD [])

/-- `eventManager.generateRequestAndSubscribeEvent(tag, topic, subscriptionId)`. -/
def generateRequestAndSubscribeEvent (now : Int) (tag topic subscriptionId : JSString) :
    JSString :=
  (jsonStringify (.arr [.str (lit "REQ"), .str subscriptionId,
    .obj (buildObject [(lit "kinds", .arr [.num 29333]),
      (lit "since", .num (Int.fdiv now 1000 - 10)),
      (lit "#" ++ tag, .arr [.str topic])])])).getD []

/-! ## connectionManager: the relay pool -/

/-- An entry of the relay ring: a relay address, or `undefined` (what `shift()` yields on an
empty ring). -/
abbrev Relay := Option JSString

/-- The property name a ring entry gives in `connectionManager.sockets[relay]`, and the text
`new WebSocket(relay)` receives. -/
def Relay.key (r : Relay) : JSString :=
  match r with
  | some u => u
  | none => lit "undefined"

/-- A `WebSocket` object: the `relay` its callbacks captured and its `readyState`
(0 connecting, 1 open, 2 closing, 3 closed). -/
structure Socket where
  relay : Relay
  readyState : Nat
  deriving DecidableEq, Repr

/-- An element `{url, socket}` of `connectionManager.connections`; the socket is its index in
the list of sockets created, `none` when the property is missing. -/
structure Connection where
  url : Relay
  socket : Option Nat
  deriving DecidableEq, Repr

/-- The state of `connectionManager`: the ring `relays`, the table `sockets` (property name to
socket), the list `connections`, every `WebSocket` created so far in creation order, the value
of `connectionInterval` and whether that timer is running. -/
structure Pool where
  relays : List Relay
  sockets : List (JSString × Nat)
  connections : List Connection
  created : List Socket
  connectionInterval : Option Nat
  timerRunning : Bool
  deriving DecidableEq, Repr

/-- The `readyState` of the socket with index `id`. -/
def Pool.readyStateOf (p : Pool) (id : Nat) : Option Nat :=
  (p.created[id]?).map Socket.readyState

/-- The part of `connectAndMaintain` after `relays.shift()` returned `relay` and left `rest`.
With an open socket stored for `relay` the entry goes back to the tail.  Otherwise
`new WebSocket(relay)` runs: it raises a `SyntaxError` on a text that is no WebSocket URL
(`validUrl`), and then the entry is not pushed back; else the new socket, in state connecting,
is stored in the table and the entry goes back to the tail. -/
def maintainRelay (validUrl : JSString → Bool) (p : Pool) (relay : Relay)
    (rest : List Relay) : Pool × Option JSError :=
  let existingOpen : Bool :=
    match mapGet p.sockets relay.key with
    | some id => decide (p.readyStateOf id = some 1)
    | none => false
  if existingOpen then
    ({ p with relays := rest ++ [relay] }, none)
  else if validUrl relay.key then
    ({ p with
        relays := rest ++ [relay]
        sockets := mapSet p.sockets relay.key p.created.length
        created := p.created ++ [{ relay := relay, readyState := 0 }] }, none)
  else
    ({ p with relays := rest }, some .syntaxError)

/-- `connectionManager.connectAndMaintain()`. -/
def connectAndMaintain (validUrl : JSString → Bool) (p : Pool) : Pool × Option JSError :=
  match p.relays with
  | [] => maintainRelay validUrl p none []
  | relay :: rest => maintainRelay validUrl p relay rest

/-- The `readyState` of socket `id` set to `st`. -/
def Pool.setReadyState (p : Pool) (id st : Nat) : Pool :=
  { p with created := p.created.modify (fun s => { s with readyState := st }) id }

/-- The callback `socket.onopen` of socket `id`. -/
def onopen (p : Pool) (id : Nat) : Pool :=
  match p.created[id]? with
  | some s => { p with connections := p.connections ++ [{ url := s.relay, socket := some id }] }
  | none => p

/-- The callback `socket.onclose` of socket `id`. -/
def onclose (p : Pool) (id : Nat) : Pool :=
  match p.created[id]? with
  | some s =>
    { p with
        connections := p.connections.filter (fun c => c.url != s.relay)
        sockets := p.sockets.filter (fun e => e.1 != s.relay.key) }
  | none => p

/-- What happens to the pool between two runs of the event loop. -/
inductive PoolEvent where
  | tick
  | opened (id : Nat)
  | closing (id : Nat)
  | closed (id : Nat)
  deriving DecidableEq, Repr

/-- One step of the pool.  A maintenance tick runs `connectAndMaintain` (an error it raises
rejects the promise of the async function and goes no further).  A connecting socket opens:
its `readyState` becomes 1 and `onopen` runs.  An open socket starts its closing handshake:
its `readyState` becomes 2.  A socket that is not closed yet closes: its `readyState` becomes 3
and `onclose` runs.  `none` when the event cannot happen in this state. -/
def Pool.step (validUrl : JSString → Bool) (p : Pool) : PoolEvent → Option Pool
  | .tick => some (connectAndMaintain validUrl p).1
  | .opened id =>
    if p.readyStateOf id = some 0 then some (onopen (p.setReadyState id 1) id) else none
  | .closing id =>
    if p.readyStateOf id = some 1 then some (p.setReadyState id 2) else none
  | .closed id =>
    match p.readyStateOf id with
    | some st => if st = 3 then none else some (onclose (p.setReadyState id 3) id)
    | none => none

/-- The pool after a sequence of events, `none` when one of them cannot happen. -/
def Pool.run (validUrl : JSString → Bool) (p : Pool) : List PoolEvent → Option Pool
  | [] => some p
  | e :: es =>
    match p.step validUrl e with
    | some q => q.run validUrl es
    | none => none

/-- The pool when `connect` has stored the ring and started the timer: no socket, no
connection. -/
def Pool.start (ring : List Relay) : Pool :=
  { relays := ring, sockets := [], connections := [], created := [],
    connectionInterval := some 1, timerRunning := true }

/-- One iteration of the `forEach` of `broadcast`, on the pool and the log of `send` calls
(socket, data). -/
def broadcastStep (data : JSString) (acc : Pool × List (Nat × JSString)) (c : Connection) :
    Pool × List (Nat × JSString) :=
  match c.socket with
  | some id =>
    if acc.1.readyStateOf id = some 1 then (acc.1, acc.2 ++ [(id, data)]) else acc
  | none => acc

/-- `connectionManager.broadcast(data)`: the pool afterwards and the `send` calls made. -/
def broadcast (p : Pool) (data : JSString) : Pool × List (Nat × JSString) :=
  p.connections.foldl (broadcastStep data) (p, [])

/-- What `closeConnections` did: the pool afterwards, the sockets `close` was called on, and
the error raised. -/
structure CloseResult where
  pool : Pool
  closed : List Nat
  error : Option JSError
  deriving DecidableEq, Repr

/-- `connectionManager.closeConnections()`: `clearInterval` stops the timer; then
`connectionManager.sockets.forEach` is read on the plain object `sockets`, which gives a
`WebSocket` when a relay is named `forEach` and `undefined` otherwise, and calling either
raises a `TypeError`. -/
def closeConnections (p : Pool) : CloseResult :=
  let p1 := { p with timerRunning := false }
  match mapGet p.sockets (lit "forEach") with
  | some _ => { pool := p1, closed := [], error := some .typeError }
  | none => { pool := p1, closed := [], error := some .typeError }

/-! ## socket.onmessage -/

/-- An array object `[tag, topic]`: its address (arrays are compared by identity) and its two
elements. -/
structure PairArray where
  addr : Nat
  tag : JSString
  topic : JSString
  deriving DecidableEq, Repr

/-- `Map.prototype.set` on a map whose keys are array objects: keys are the same when they
are the same object. -/
def refMapSet (m : List (PairArray × JSString)) (k : PairArray) (v : JSString) :
    List (PairArray × JSString) :=
  if m.any (fun e => e.1.addr == k.addr) then
    m.map (fun e => if e.1.addr == k.addr then (e.1, v) else e)
  else m ++ [(k, v)]

/-- `Map.prototype.get` on a map whose keys are array objects. -/
def refMapGet (m : List (PairArray × JSString)) (k : PairArray) : Option JSString :=
  (m.find? (fun e => e.1.addr == k.addr)).map Prod.snd

/-- The subscription state of the module: the maps `tagtopicToSubscriptionId` and
`subscriptionIdTotagtopic`, `connectionManager.handlers`, the number of arrays allocated so far
and the number of random draws consumed so far. -/
structure Registry (H : Type) where
  tagtopicToSubscriptionId : List (PairArray × JSString)
  subscriptionIdTotagtopic : List (JSString × PairArray)
  handlers : List (JSString × H)
  allocated : Nat
  drawn : Nat

/-- The registry of a module just loaded. -/
def Registry.empty (H : Type) : Registry H :=
  { tagtopicToSubscriptionId := [], subscriptionIdTotagtopic := [], handlers := [],
    allocated := 0, drawn := 0 }

/-- `connectionManager.addHandler(subscriptionId, handler)`. -/
def addHandler {H : Type} (r : Registry H) (subscriptionId : JSString) (handler : H) :
    Registry H :=
  { r with handlers := mapSet r.handlers subscriptionId handler }

/-- What `subscribeToData` did: the registry afterwards, the `send` calls of its broadcast,
and the id returned. -/
structure Subscribed (H : Type) where
  registry : Registry H
  sent : List (Nat × JSString)
  subscriptionId : JSString

/-- `subscribeToData(tag, topic, responseHandler)`: each array literal `[tag, topic]` is a new
object. -/
def subscribeToData {H : Type} (draw : RandomSource) (now : Int) (pool : Pool)
    (r : Registry H) (tag topic : JSString) (responseHandler : H) : Subscribed H :=
  let subscriptionId := (generateRandomId draw r.drawn 64).1
  let r1 : Registry H :=
    { r with
        drawn := (generateRandomId draw r.drawn 64).2
        tagtopicToSubscriptionId :=
          refMapSet r.tagtopicToSubscriptionId ⟨r.allocated, tag, topic⟩ subscriptionId
        allocated := r.allocated + 1 }
  let r2 : Registry H :=
    { r1 with
        subscriptionIdTotagtopic :=
          mapSet r1.subscriptionIdTotagtopic subscriptionId ⟨r1.allocated, tag, topic⟩
        allocated := r1.allocated + 1 }
  let data := generateRequestAndSubscribeEvent now tag topic subscriptionId
  let r3 := addHandler r2 subscriptionId responseHandler
  { registry := r3, sent := (broadcast pool data).2, subscriptionId := subscriptionId }

/-- The lookup a later caller makes in `tagtopicToSubscriptionId` for a tag and a topic: it
builds the key `[tag, topic]`, a new array. -/
def lookupTagTopic {H : Type} (r : Registry H) (tag topic : JSString) : Option JSString :=
  refMapGet r.tagtopicToSubscriptionId ⟨r.allocated, tag, topic⟩

/-! ## Vocabulary of the specification -/

/-- The two lowercase hexadecimal digits of a byte, high digit first. -/
def hexPair (c : Nat) : JSString := [digitUnit (c / 16), digitUnit (c % 16)]

/-- The code unit is one of the characters `0`-`9`, `a`-`f`. -/
def IsLowerHex (u : Nat) : Prop := (48 ≤ u ∧ u ≤ 57) ∨ (97 ≤ u ∧ u ≤ 102)

/-- The connection has a socket and that socket is open (`readyState` 1). -/
def Pool.isOpenConn (p : Pool) (c : Connection) : Bool :=
  match c.socket with
  | some id => decide (p.readyStateOf id = some 1)
  | none => false

/-- A deterministic random source whose every draw is 0. -/
def zeroDraws : RandomSource := fun _ => 0

/-- The relay `wss://relay.nostr.net`. -/
def relayNostrNet : Relay := some (lit "wss://relay.nostr.net")

/-- Every live connection belongs to a socket that has opened and has not closed, under the
relay of that socket, and no socket has two live connections. -/
def Pool.LiveInv (p : Pool) : Prop :=
  (p.connections.map Connection.socket).Nodup ∧
  ∀ c ∈ p.connections, ∃ id s, c.socket = some id ∧ p.created[id]? = some s ∧
    s.relay = c.url ∧ (s.readyState = 1 ∨ s.readyState = 2)

/-- The pool with one relay whose socket has opened. -/
def onePoolOpen : Pool :=
  { relays := [relayNostrNet], sockets := [(lit "wss://relay.nostr.net", 0)],
    connections := [{ url := relayNostrNet, socket := some 0 }],
    created := [{ relay := relayNostrNet, readyState := 1 }],
    connectionInterval := some 1, timerRunning := true }

/-- A first subscription on a module just loaded, every random draw being 0. -/
def firstSubscription : Subscribed Nat :=
  subscribeToData zeroDraws 0 (Pool.start []) (Registry.empty Nat) (lit "t") (lit "demo") 1

/-- A second subscription after `firstSubscription`, every random draw being 0 again. -/
def secondSubscription : Subscribed Nat :=
  subscribeToData zeroDraws 0 (Pool.start []) firstSubscription.registry (lit "t") (lit "other") 2

/-- The text cannot continue a number: it is empty or starts with a unit that is no digit,
no point and no exponent mark. -/
def NumStop (rest : JSString) : Prop :=
  match rest with
  | [] => True
  | c :: _ => isDigit c = false ∧ c ≠ 46 ∧ c ≠ 101 ∧ c ≠ 69

mutual
/-- The value is one `JSON.parse` can return in this model: no `undefined` inside, integers of
magnitude at most 2^53, and objects without a repeated property name. -/
def Val.Plain : Val → Prop
  | .undefined => False
  | .null => True
  | .bool _ => True
  | .num n => n.natAbs ≤ maxSafe
  | .str _ => True
  | .arr xs => PlainList xs
  | .obj ps => PlainProps ps ∧ (ps.map Prod.fst).Nodup
/-- Every value of the list is plain. -/
def PlainList : List Val → Prop
  | [] => True
  | x :: xs => x.Plain ∧ PlainList xs
/-- Every property value of the list is plain. -/
def PlainProps : List (JSString × Val) → Prop
  | [] => True
  | (_, v) :: ps => v.Plain ∧ PlainProps ps
end

/-- The canonical serialization `[0, pubkey, created_at, kind, tags, content]` of the event
that `generateSendEvent` builds from its arguments. -/
def canonicalSerialization (publicKey : JSString) (now : Int) (message tag topic : JSString) :
    JSString :=
  (jsonStringify (.arr [.num 0, .str publicKey, .num (Int.fdiv now 1000), .num 29333,
    .arr [.arr [.str tag, .str topic]], .str message])).getD []

/-- The relay `wss://relay.snort.social`. -/
def relaySnortSocial : Relay := some (lit "wss://relay.snort.social")

/-- The pool with one relay after two ticks and the opening of both sockets created. -/
def twoSocketsOpen : Pool :=
  { relays := [relayNostrNet], sockets := [(lit "wss://relay.nostr.net", 1)],
    connections := [{ url := relayNostrNet, socket := some 0 },
      { url := relayNostrNet, socket := some 1 }],
    created := [{ relay := relayNostrNet, readyState := 1 },
      { relay := relayNostrNet, readyState := 1 }],
    connectionInterval := some 1, timerRunning := true }

/-- A digest function for examples: 32 bytes, the first being the length of the text
modulo 256. -/
def sampleDigest (text : JSString) : List Nat := (text.length % 256) :: List.replicate 31 7

/-- A signing function for examples: 64 bytes. -/
def sampleSign (_messageHash : JSString) : List Nat := List.replicate 64 200

/-! # Theorems -/

/-! ## bufferToHex -/

theorem natToString16_byte (c : Nat) (h : c < 256) :
    padStart 2 (lit "0") (natToString 16 c) = [digitUnit (c / 16), digitUnit (c % 16)] := by
  unfold natToString natToRadix
  by_cases h16 : c < 16
  · have h0 : c / 16 = 0 := Nat.div_eq_of_lt h16
    have h1 : c % 16 = c := Nat.mod_eq_of_lt h16
    simp [h16, padStart, lit, h0, h1, digitUnit]
  · have hq : c / 16 < 16 := by omega
    obtain ⟨k, hk⟩ : ∃ k, c = k + 1 := ⟨c - 1, by omega⟩
    subst hk
    simp only [h16, if_false]
    unfold natToRadix
    simp [hq, padStart]

theorem foldl_append_eq_flatten (f : Nat → JSString) (b : List Nat) (init : JSString) :
    b.foldl (fun a c => a ++ f c) init = init ++ (b.map f).flatten := by
  induction b generalizing init with
  | nil => simp
  | cons c cs ih => simp [ih, List.append_assoc]

theorem bufferToHex_bytes (b : List Nat) (h : ∀ c ∈ b, c < 256) :
    bufferToHex b = (b.map hexPair).flatten := by
  unfold bufferToHex
  rw [foldl_append_eq_flatten]
  simp only [List.nil_append]
  congr 1
  apply List.map_congr_left
  intro c hc
  exact natToString16_byte c (h c hc)

theorem digitUnit_lowerHex (d : Nat) (h : d < 16) : IsLowerHex (digitUnit d) := by
  unfold IsLowerHex digitUnit
  split <;> omega

theorem digitUnit_inj (d e : Nat) (hd : d < 16) (he : e < 16)
    (h : digitUnit d = digitUnit e) : d = e := by
  unfold digitUnit at h
  split at h <;> split at h <;> omega

theorem hexPairs_length (b : List Nat) : ((b.map hexPair).flatten).length = 2 * b.length := by
  induction b with
  | nil => simp
  | cons c cs ih => simp [hexPair, ih]; omega

theorem hexPairs_lowerHex (b : List Nat) (h : ∀ c ∈ b, c < 256) :
    ∀ u ∈ (b.map hexPair).flatten, IsLowerHex u := by
  induction b with
  | nil => simp
  | cons c cs ih =>
    intro u hu
    have hc : c < 256 := h c (by simp)
    simp only [List.map_cons, List.flatten_cons, List.mem_append, hexPair, List.mem_cons,
      List.mem_singleton, List.not_mem_nil, or_false] at hu
    rcases hu with (hu | hu) | hu
    · subst hu; exact digitUnit_lowerHex _ (by omega)
    · subst hu; exact digitUnit_lowerHex _ (Nat.mod_lt _ (by decide))
    · exact ih (fun x hx => h x (by simp [hx])) u hu

theorem hexPairs_get (b : List Nat) (i : Nat) (hi : i < b.length) :
    ((b.map hexPair).flatten)[2 * i]? = some (digitUnit (b[i] / 16)) ∧
    ((b.map hexPair).flatten)[2 * i + 1]? = some (digitUnit (b[i] % 16)) := by
  induction b generalizing i with
  | nil => simp at hi
  | cons c cs ih =>
    cases i with
    | zero => simp [hexPair]
    | succ j =>
      have hj : j < cs.length := by simpa using hi
      have h := ih j hj
      have e1 : 2 * (j + 1) = (2 * j) + 1 + 1 := by omega
      simp only [List.map_cons, List.flatten_cons, hexPair, List.cons_append, List.nil_append,
        List.getElem_cons_succ]
      rw [e1]
      simp only [List.getElem?_cons_succ]
      exact h

theorem hexPairs_inj (b b' : List Nat) (h : ∀ c ∈ b, c < 256) (h' : ∀ c ∈ b', c < 256)
    (e : (b.map hexPair).flatten = (b'.map hexPair).flatten) : b = b' := by
  induction b generalizing b' with
  | nil =>
    cases b' with
    | nil => rfl
    | cons c cs => simp [hexPair] at e
  | cons c cs ih =>
    cases b' with
    | nil => simp [hexPair] at e
    | cons d ds =>
      simp only [List.map_cons, List.flatten_cons, hexPair, List.cons_append, List.nil_append,
        List.cons.injEq] at e
      obtain ⟨e1, e2, e3⟩ := e
      have hc : c < 256 := h c (by simp)
      have hd : d < 256 := h' d (by simp)
      have q := digitUnit_inj _ _ (by omega) (by omega) e1
      have r := digitUnit_inj _ _ (Nat.mod_lt _ (by decide)) (Nat.mod_lt _ (by decide)) e2
      have hcd : c = d := by omega
      have := ih ds (fun x hx => h x (by simp [hx])) (fun x hx => h' x (by simp [hx])) e3
      rw [hcd, this]

/-! ## passToHandlers -/

theorem strictEqStr_iff (v : Val) (s : JSString) : v.strictEqStr s = true ↔ v = .str s := by
  cases v <;> simp [Val.strictEqStr]

theorem mapGet_eq_none_iff {V : Type} (m : List (JSString × V)) (k : JSString) :
    mapGet m k = none ↔ k ∉ m.map Prod.fst := by
  unfold mapGet
  induction m with
  | nil => simp
  | cons e es ih =>
    by_cases hk : e.1 = k
    · simp [List.find?_cons, hk]
    · have hk2 : ¬ k = e.1 := fun h => hk h.symm
      simpa [List.find?_cons, hk, hk2] using ih

theorem passToHandlers_calls_sound {H : Type} (throws : H → Val → Bool)
    (handlers : List (JSString × H)) (msg : Val) (subId : JSString) (h : H) (arg : Val)
    (hc : (subId, h, arg) ∈ (passToHandlers throws handlers msg).calls) :
    (subId, h) ∈ handlers ∧ msg.index 0 = .ok (.str (lit "EVENT")) ∧
      msg.index 1 = .ok (.str subId) ∧ msg.index 2 = .ok arg := by
  induction handlers with
  | nil => simp [passToHandlers] at hc
  | cons e es ih =>
    obtain ⟨k, g⟩ := e
    unfold passToHandlers at hc
    split at hc
    · simp at hc
    · rename_i m0 h0
      split at hc
      · rename_i hev
        rw [strictEqStr_iff] at hev
        subst hev
        split at hc
        · simp at hc
        · rename_i m1 h1
          split at hc
          · rename_i hid
            rw [strictEqStr_iff] at hid
            subst hid
            split at hc
            · simp at hc
            · rename_i m2 h2
              split at hc
              · simp only [List.mem_singleton, Prod.mk.injEq] at hc
                obtain ⟨rfl, rfl, rfl⟩ := hc
                exact ⟨by simp, h0, h1, h2⟩
              · simp only [List.mem_cons, Prod.mk.injEq] at hc
                rcases hc with ⟨rfl, rfl, rfl⟩ | hc
                · exact ⟨by simp, h0, h1, h2⟩
                · obtain ⟨a, b⟩ := ih hc
                  exact ⟨by simp [a], b⟩
          · obtain ⟨a, b⟩ := ih hc
            exact ⟨by simp [a], b⟩
      · obtain ⟨a, b⟩ := ih hc
        exact ⟨by simp [a], b⟩

theorem passToHandlers_calls_nil {H : Type} (throws : H → Val → Bool)
    (handlers : List (JSString × H)) (msg : Val)
    (hno : msg.index 0 ≠ .ok (.str (lit "EVENT")) ∨
      ∀ s, msg.index 1 = .ok (.str s) → s ∉ handlers.map Prod.fst) :
    (passToHandlers throws handlers msg).calls = [] := by
  cases hcalls : (passToHandlers throws handlers msg).calls with
  | nil => rfl
  | cons c cs =>
    exfalso
    obtain ⟨s, g, a⟩ := c
    have hmem : (s, g, a) ∈ (passToHandlers throws handlers msg).calls := by simp [hcalls]
    obtain ⟨h1, h2, h3, _⟩ := passToHandlers_calls_sound throws handlers msg s g a hmem
    rcases hno with hno | hno
    · exact hno h2
    · exact hno s h3 (List.mem_map.mpr ⟨(s, g), h1, rfl⟩)

theorem passToHandlers_calls_complete {H : Type} (throws : H → Val → Bool)
    (handlers : List (JSString × H)) (msg : Val) (subId : JSString) (h : H) (arg : Val)
    (hmap : (handlers.map Prod.fst).Nodup) (hin : (subId, h) ∈ handlers)
    (h0 : msg.index 0 = .ok (.str (lit "EVENT"))) (h1 : msg.index 1 = .ok (.str subId))
    (h2 : msg.index 2 = .ok arg) :
    (passToHandlers throws handlers msg).calls = [(subId, h, arg)] := by
  induction handlers with
  | nil => simp at hin
  | cons e es ih =>
    obtain ⟨k, g⟩ := e
    simp only [List.map_cons, List.nodup_cons] at hmap
    obtain ⟨hk, hes⟩ := hmap
    unfold passToHandlers
    simp only [h0, h1, h2, Val.strictEqStr, beq_self_eq_true, if_true]
    by_cases hks : subId = k
    · subst hks
      have hg : g = h := by
        simp only [List.mem_cons, Prod.mk.injEq, true_and] at hin
        rcases hin with hin | hin
        · exact hin.symm
        · exact absurd (List.mem_map.mpr ⟨(subId, h), hin, rfl⟩) hk
      subst hg
      have hrest : (passToHandlers throws es msg).calls = [] :=
        passToHandlers_calls_nil throws es msg (Or.inr (fun s hs => by
          rw [h1] at hs
          simp only [Except.ok.injEq, Val.str.injEq] at hs
          subst hs
          exact hk))
      simp only [beq_self_eq_true, if_true]
      split
      · rfl
      · simp [hrest]
    · have hin2 : (subId, h) ∈ es := by
        simp only [List.mem_cons, Prod.mk.injEq] at hin
        rcases hin with ⟨a, _⟩ | hin
        · exact absurd a hks
        · exact hin
      have hne : (subId == k) = false := by simpa using hks
      simp only [hne]
      exact ih hes hin2

/-- C1: `passToHandlers(msg)` calls the handler registered under `subId` with argument `arg`
if and only if `msg[0]` is `'EVENT'`, `msg[1]` is exactly `subId` and `msg[2]` is `arg`; at most
one call is made in all (so a matching handler is called exactly once), and a message whose
`msg[0]` is not `'EVENT'` or whose `msg[1]` is no registered id makes no call. -/
theorem passToHandlers_dispatch {H : Type} (throws : H → Val → Bool)
    (handlers : List (JSString × H)) (msg : Val)
    (hmap : (handlers.map Prod.fst).Nodup) :
    (∀ subId h arg, (subId, h, arg) ∈ (passToHandlers throws handlers msg).calls ↔
        ((subId, h) ∈ handlers ∧ msg.index 0 = .ok (.str (lit "EVENT")) ∧
          msg.index 1 = .ok (.str subId) ∧ msg.index 2 = .ok arg)) ∧
    (∀ subId h arg, (subId, h) ∈ handlers → msg.index 0 = .ok (.str (lit "EVENT")) →
        msg.index 1 = .ok (.str subId) → msg.index 2 = .ok arg →
        (passToHandlers throws handlers msg).calls = [(subId, h, arg)]) ∧
    (passToHandlers throws handlers msg).calls.length ≤ 1 ∧
    ((msg.index 0 ≠ .ok (.str (lit "EVENT")) ∨
        ∀ s, msg.index 1 = .ok (.str s) → mapGet handlers s = none) →
      (passToHandlers throws handlers msg).calls = []) := by
  refine ⟨?_, ?_, ?_, ?_⟩
  · intro subId h arg
    constructor
    · exact passToHandlers_calls_sound throws handlers msg subId h arg
    · rintro ⟨a, b, c, d⟩
      rw [passToHandlers_calls_complete throws handlers msg subId h arg hmap a b c d]
      simp
  · intro subId h arg a b c d
    exact passToHandlers_calls_complete throws handlers msg subId h arg hmap a b c d
  · cases hcalls : (passToHandlers throws handlers msg).calls with
    | nil => simp
    | cons c cs =>
      obtain ⟨s, g, a⟩ := c
      have hmem : (s, g, a) ∈ (passToHandlers throws handlers msg).calls := by simp [hcalls]
      obtain ⟨h1, h2, h3, h4⟩ := passToHandlers_calls_sound throws handlers msg s g a hmem
      have := passToHandlers_calls_complete throws handlers msg s g a hmap h1 h2 h3 h4
      rw [hcalls] at this
      simp [this]
  · intro hno
    apply passToHandlers_calls_nil
    rcases hno with hno | hno
    · exact Or.inl hno
    · exact Or.inr (fun s hs => (mapGet_eq_none_iff handlers s).mp (hno s hs))

/-- The dispatch theorem on a registry with one handler: an `EVENT` for its id calls it once with
the payload, an `EVENT` for another id calls nothing. -/
theorem passToHandlers_dispatch_witness :
    ([(lit "sub", (1 : Nat))].map Prod.fst).Nodup ∧
    (passToHandlers (fun (_ : Nat) (_ : Val) => false) [(lit "sub", 1)]
        (.arr [.str (lit "EVENT"), .str (lit "sub"), .num 5])).calls =
      [(lit "sub", 1, .num 5)] ∧
    (passToHandlers (fun (_ : Nat) (_ : Val) => false) [(lit "sub", 1)]
        (.arr [.str (lit "EVENT"), .str (lit "other"), .num 5])).calls = [] :=
  ⟨by decide,
    (passToHandlers_dispatch (fun (_ : Nat) (_ : Val) => false) [(lit "sub", 1)]
      (.arr [.str (lit "EVENT"), .str (lit "sub"), .num 5]) (by decide)).2.1
      (lit "sub") 1 (.num 5) (by simp) rfl rfl rfl,
    (passToHandlers_dispatch (fun (_ : Nat) (_ : Val) => false) [(lit "sub", 1)]
      (.arr [.str (lit "EVENT"), .str (lit "other"), .num 5]) (by decide)).2.2.2
      (Or.inr (fun s hs => by
        have e : s = lit "other" := by
          simp only [Val.index] at hs
          injection hs with hs
          injection hs with hs
          exact hs.symm
        subst e
        decide))⟩

/-! ## broadcast -/

theorem broadcast_foldl (data : JSString) (p : Pool) (cs : List Connection)
    (log : List (Nat × JSString)) :
    cs.foldl (broadcastStep data) (p, log) =
      (p, log ++ ((cs.filter p.isOpenConn).filterMap Connection.socket).map
        (fun id => (id, data))) := by
  induction cs generalizing log with
  | nil => simp
  | cons c cs ih =>
    rw [List.foldl_cons]
    cases hs : c.socket with
    | none => simp [broadcastStep, hs, Pool.isOpenConn, ih]
    | some id =>
      by_cases ho : p.readyStateOf id = some 1
      · simp [broadcastStep, hs, Pool.isOpenConn, ih, ho]
      · simp [broadcastStep, hs, Pool.isOpenConn, ih, ho]

/-- C2: `broadcast(data)` calls `send(data)` once for each element of `connections` whose
socket exists and has `readyState` 1, in list order, and for no other element: the log of
`send` calls is the list of the sockets of the open connections, each with `data`.  A
connection whose socket is missing or not open gets no call, and the pool, its list
`connections` included, is unchanged. -/
theorem broadcast_sends_open_only (p : Pool) (data : JSString) :
    (broadcast p data).1 = p ∧
    (broadcast p data).2 =
      ((p.connections.filter p.isOpenConn).filterMap Connection.socket).map
        (fun id => (id, data)) ∧
    (∀ c ∈ p.connections, c.socket = none → p.isOpenConn c = false) ∧
    (∀ c ∈ p.connections, ∀ id st, c.socket = some id → p.readyStateOf id = some st →
        st ≠ 1 → p.isOpenConn c = false) ∧
    (∀ id d, (id, d) ∈ (broadcast p data).2 → d = data ∧ p.readyStateOf id = some 1) := by
  have h := broadcast_foldl data p p.connections []
  simp only [List.nil_append] at h
  refine ⟨?_, ?_, ?_, ?_, ?_⟩
  · simp [broadcast, h]
  · simp [broadcast, h]
  · intro c _ hc
    simp [Pool.isOpenConn, hc]
  · intro c _ id st hc hst hne
    simp [Pool.isOpenConn, hc, hst, hne]
  · intro id d hmem
    simp only [broadcast, h, List.mem_map, List.mem_filterMap, List.mem_filter,
      Prod.mk.injEq] at hmem
    obtain ⟨i, ⟨c, ⟨_, hopen⟩, hsock⟩, rfl, rfl⟩ := hmem
    simp only [Pool.isOpenConn, hsock, decide_eq_true_eq] at hopen
    exact ⟨rfl, hopen⟩

/-! ## connectAndMaintain -/

/-- C3: on a ring `u :: us`, in each of the two branches of `connectAndMaintain` (an open socket
is stored for `u`, or `new WebSocket(u)` creates one) the step raises no error and leaves the
ring equal to `us ++ [u]`: the head goes to the tail, and the length and the multiset of the
ring are those of the ring before. -/
theorem connectAndMaintain_rotates (validUrl : JSString → Bool) (p : Pool) (u : Relay)
    (us : List Relay) (hring : p.relays = u :: us)
    (hbranch : (∃ id, mapGet p.sockets u.key = some id ∧ p.readyStateOf id = some 1) ∨
      validUrl u.key = true) :
    (connectAndMaintain validUrl p).1.relays = us ++ [u] ∧
    (connectAndMaintain validUrl p).2 = none ∧
    (connectAndMaintain validUrl p).1.relays.length = p.relays.length ∧
    (connectAndMaintain validUrl p).1.relays.Perm p.relays := by
  have hrel : (connectAndMaintain validUrl p).1.relays = us ++ [u] ∧
      (connectAndMaintain validUrl p).2 = none := by
    unfold connectAndMaintain
    rw [hring]
    simp only [maintainRelay]
    rcases hbranch with ⟨id, h1, h2⟩ | hv
    · simp [h1, h2]
    · split
      · simp
      · simp [hv]
  refine ⟨hrel.1, hrel.2, ?_, ?_⟩
  · rw [hrel.1, hring]; simp
  · rw [hrel.1, hring]
    exact List.perm_append_comm

/-- The rotation theorem on a pool just started with two relays (a socket is created) and on the
pool with one relay whose socket is open. -/
theorem connectAndMaintain_rotates_witness :
    (Pool.start [relayNostrNet, relaySnortSocial]).relays = relayNostrNet :: [relaySnortSocial] ∧
    (connectAndMaintain (fun _ => true) (Pool.start [relayNostrNet, relaySnortSocial])).1.relays =
      [relaySnortSocial] ++ [relayNostrNet] ∧
    (connectAndMaintain (fun _ => true) onePoolOpen).1.relays = [] ++ [relayNostrNet] :=
  ⟨rfl,
    (connectAndMaintain_rotates (fun _ => true) (Pool.start [relayNostrNet, relaySnortSocial])
      relayNostrNet [relaySnortSocial] rfl (Or.inr rfl)).1,
    (connectAndMaintain_rotates (fun _ => true) onePoolOpen relayNostrNet [] rfl
      (Or.inl ⟨0, by decide, by decide⟩)).1⟩

/-! ## closeConnections -/

theorem closeConnections_raises (p : Pool) :
    (closeConnections p).error = some .typeError ∧ (closeConnections p).closed = [] ∧
      (closeConnections p).pool.timerRunning = false := by
  unfold closeConnections
  split <;> simp

/-- C9: on the pool with one relay whose socket has opened (reached by a tick and the open
event), `closeConnections()` stops the timer, then raises a `TypeError` and calls `close` on
no socket, although one connection is open. -/
theorem closeConnections_fails_on_open_pool :
    Pool.run (fun _ => true) (Pool.start [relayNostrNet]) [.tick, .opened 0] = some onePoolOpen ∧
    onePoolOpen.isOpenConn { url := relayNostrNet, socket := some 0 } = true ∧
    closeConnections onePoolOpen =
      { pool := { onePoolOpen with timerRunning := false }, closed := [],
        error := some .typeError } := by
  decide

/-! ## The pool invariant -/

/-- C4, as stated: with a ring of one relay, two ticks create two sockets for the relay (the
second tick finds the first socket still connecting), both open, and the pool has two live
connections for a ring of length one. -/
theorem connections_exceed_ring_length :
    (Pool.start [relayNostrNet]).relays.length = 1 ∧
    (Pool.start [relayNostrNet]).sockets = [] ∧
    (Pool.start [relayNostrNet]).connections = [] ∧
    (Pool.run (fun _ => true) (Pool.start [relayNostrNet])
      [.tick, .tick, .opened 0, .opened 1]).map (fun q => q.connections.length) = some 2 := by
  decide

theorem created_setReadyState (p : Pool) (id st j : Nat) :
    (p.setReadyState id st).created[j]? =
      if id = j then (p.created[j]?).map (fun s => { s with readyState := st })
      else p.created[j]? := by
  simp only [Pool.setReadyState, List.getElem?_modify]
  by_cases h : id = j
  · simp [h]
  · cases hj : p.created[j]? <;> simp [h]

theorem liveInv_start (ring : List Relay) : (Pool.start ring).LiveInv := by
  simp [Pool.LiveInv, Pool.start]

theorem liveInv_tick (validUrl : JSString → Bool) (p : Pool) (h : p.LiveInv) :
    (connectAndMaintain validUrl p).1.LiveInv := by
  have key : ∀ relay rest, (maintainRelay validUrl p relay rest).1.LiveInv := by
    intro relay rest
    unfold maintainRelay
    simp only
    split
    · exact h
    · split
      · refine ⟨h.1, ?_⟩
        intro c hc
        obtain ⟨id, s, h1, h2, h3⟩ := h.2 c hc
        refine ⟨id, s, h1, ?_, h3⟩
        have hlt : id < p.created.length := (List.getElem?_eq_some_iff.mp h2).1
        simp only [List.getElem?_append_left hlt, h2]
      · exact h
  unfold connectAndMaintain
  split
  · exact key _ _
  · exact key _ _

theorem liveInv_opened (p : Pool) (id : Nat) (h : p.LiveInv)
    (hst : p.readyStateOf id = some 0) : (onopen (p.setReadyState id 1) id).LiveInv := by
  obtain ⟨s0, hs0, hr0⟩ : ∃ s0, p.created[id]? = some s0 ∧ s0.readyState = 0 := by
    simp only [Pool.readyStateOf, Option.map_eq_some'] at hst
    exact hst
  have hne : ∀ c ∈ p.connections, c.socket ≠ some id := by
    intro c hc hcs
    obtain ⟨j, s, h1, h2, _, h4⟩ := h.2 c hc
    rw [hcs] at h1
    cases h1
    rw [hs0] at h2
    cases h2
    omega
  have hcr : (p.setReadyState id 1).created[id]? = some { s0 with readyState := 1 } := by
    rw [created_setReadyState]; simp [hs0]
  unfold onopen
  rw [hcr]
  constructor
  · show ((p.connections ++ [_]).map Connection.socket).Nodup
    rw [List.map_append, List.nodup_append]
    refine ⟨h.1, by simp, ?_⟩
    intro x hx hx2
    simp only [List.map_cons, List.map_nil, List.mem_singleton] at hx2
    subst hx2
    obtain ⟨c, hc, hcs⟩ := List.mem_map.mp hx
    exact hne c hc hcs
  · intro c hc
    have hc2 : c ∈ p.connections ∨ c = { url := s0.relay, socket := some id } := by
      simpa [Pool.setReadyState] using hc
    rcases hc2 with hc2 | hc2
    · obtain ⟨j, s, h1, h2, h3⟩ := h.2 c hc2
      refine ⟨j, s, h1, ?_, h3⟩
      show (p.setReadyState id 1).created[j]? = some s
      rw [created_setReadyState]
      have : id ≠ j := fun e => hne c hc2 (by rw [h1, e])
      simp [this, h2]
    · subst hc2
      exact ⟨id, { s0 with readyState := 1 }, rfl, hcr, rfl, Or.inl rfl⟩

theorem liveInv_closing (p : Pool) (id : Nat) (h : p.LiveInv) :
    (p.setReadyState id 2).LiveInv := by
  refine ⟨h.1, ?_⟩
  intro c hc
  obtain ⟨j, s, h1, h2, h3, h4⟩ := h.2 c hc
  by_cases e : id = j
  · subst e
    refine ⟨id, { s with readyState := 2 }, h1, ?_, h3, Or.inr rfl⟩
    rw [created_setReadyState]; simp [h2]
  · refine ⟨j, s, h1, ?_, h3, h4⟩
    rw [created_setReadyState]; simp [e, h2]

theorem liveInv_closed (p : Pool) (id : Nat) (h : p.LiveInv) :
    (onclose (p.setReadyState id 3) id).LiveInv := by
  unfold onclose
  cases hcr : (p.setReadyState id 3).created[id]? with
  | none =>
    simp only
    refine ⟨h.1, ?_⟩
    intro c hc
    obtain ⟨j, s, h1, h2, h3⟩ := h.2 c hc
    have e : id ≠ j := by
      intro e
      subst e
      rw [created_setReadyState] at hcr
      simp [h2] at hcr
    refine ⟨j, s, h1, ?_, h3⟩
    rw [created_setReadyState]; simp [e, h2]
  | some s3 =>
    simp only
    have hs3 : ∃ s0, p.created[id]? = some s0 ∧ s3.relay = s0.relay := by
      rw [created_setReadyState] at hcr
      simp only [if_true, Option.map_eq_some'] at hcr
      obtain ⟨s0, a, b⟩ := hcr
      exact ⟨s0, a, by rw [← b]⟩
    obtain ⟨s0, hs0, hrel⟩ := hs3
    constructor
    · exact (h.1).sublist ((List.filter_sublist _).map _)
    · intro c hc
      have hc2 : c ∈ p.connections ∧ c.url ≠ s3.relay := by
        simpa [Pool.setReadyState] using hc
      obtain ⟨j, s, h1, h2, h3, h4⟩ := h.2 c hc2.1
      have e : id ≠ j := by
        intro e
        subst e
        rw [hs0] at h2
        cases h2
        exact hc2.2 (by rw [hrel, h3])
      refine ⟨j, s, h1, ?_, h3, h4⟩
      show (p.setReadyState id 3).created[j]? = some s
      rw [created_setReadyState]; simp [e, h2]

theorem liveInv_step (validUrl : JSString → Bool) (p q : Pool) (e : PoolEvent)
    (h : p.LiveInv) (hq : p.step validUrl e = some q) : q.LiveInv := by
  cases e with
  | tick =>
    simp only [Pool.step, Option.some.injEq] at hq
    subst hq
    exact liveInv_tick validUrl p h
  | opened id =>
    simp only [Pool.step] at hq
    split at hq
    · rename_i hst
      cases hq
      exact liveInv_opened p id h hst
    · cases hq
  | closing id =>
    simp only [Pool.step] at hq
    split at hq
    · cases hq
      exact liveInv_closing p id h
    · cases hq
  | closed id =>
    simp only [Pool.step] at hq
    split at hq
    · split at hq
      · cases hq
      · cases hq
        exact liveInv_closed p id h
    · cases hq

theorem liveInv_run (validUrl : JSString → Bool) (events : List PoolEvent) (p q : Pool)
    (h : p.LiveInv) (hq : p.run validUrl events = some q) : q.LiveInv := by
  induction events generalizing p with
  | nil =>
    simp only [Pool.run, Option.some.injEq] at hq
    subst hq
    exact h
  | cons e es ih =>
    simp only [Pool.run] at hq
    split at hq
    · rename_i p1 hp1
      exact ih p1 (liveInv_step validUrl p p1 e h hp1) hq
    · cases hq

theorem liveInv_length_le (p : Pool) (h : p.LiveInv) :
    p.connections.length ≤ p.created.length := by
  have hnd : (p.connections.filterMap Connection.socket).Nodup := by
    have := h.1
    rw [← List.filterMap_eq_map] at this
    have h2 := List.Nodup.filterMap (f := id) (l := p.connections.filterMap (some ∘ Connection.socket))
      (by intro a a2 b hb hb2; simp at hb hb2; rw [hb, hb2]) this
    simpa [List.filterMap_filterMap] using h2
  have hlen : (p.connections.filterMap Connection.socket).length = p.connections.length := by
    have hall : ∀ c ∈ p.connections, ∃ id, c.socket = some id := fun c hc => by
      obtain ⟨id, _, h1, _⟩ := h.2 c hc
      exact ⟨id, h1⟩
    generalize p.connections = cs at hall
    induction cs with
    | nil => rfl
    | cons c cs ih =>
      obtain ⟨id, hid⟩ := hall c (by simp)
      simp only [List.filterMap_cons, hid, List.length_cons]
      rw [ih (fun c hc => hall c (by simp [hc]))]
  have hsub : p.connections.filterMap Connection.socket ⊆ List.range p.created.length := by
    intro i hi
    obtain ⟨c, hc, hci⟩ := List.mem_filterMap.mp hi
    obtain ⟨j, s, h1, h2, _⟩ := h.2 c hc
    rw [h1] at hci
    cases hci
    exact List.mem_range.mpr (List.getElem?_eq_some_iff.mp h2).1
  have := (List.subperm_of_subset hnd hsub).length_le
  rw [hlen, List.length_range] at this
  exact this

theorem created_length_step (validUrl : JSString → Bool) (p q : Pool) (e : PoolEvent)
    (hq : p.step validUrl e = some q) :
    q.created.length ≤ p.created.length + (if e = .tick then 1 else 0) := by
  have hop : ∀ (p : Pool) id, (onopen p id).created = p.created := by
    intro p id; unfold onopen; split <;> rfl
  have hcl : ∀ (p : Pool) id, (onclose p id).created = p.created := by
    intro p id; unfold onclose; split <;> rfl
  have hset : ∀ (p : Pool) id st, (p.setReadyState id st).created.length = p.created.length := by
    intro p id st; simp [Pool.setReadyState]
  cases e with
  | tick =>
    simp only [Pool.step, Option.some.injEq] at hq
    subst hq
    have key : ∀ relay rest,
        (maintainRelay validUrl p relay rest).1.created.length ≤ p.created.length + 1 := by
      intro relay rest
      unfold maintainRelay
      simp only
      split
      · simp
      · split <;> simp
    unfold connectAndMaintain
    split <;> simpa using key _ _
  | opened id =>
    simp only [Pool.step] at hq
    split at hq
    · cases hq; simp [hop, hset]
    · cases hq
  | closing id =>
    simp only [Pool.step] at hq
    split at hq
    · cases hq; simp [hset]
    · cases hq
  | closed id =>
    simp only [Pool.step] at hq
    split at hq
    · split at hq
      · cases hq
      · cases hq; simp [hcl, hset]
    · cases hq

theorem created_length_run (validUrl : JSString → Bool) (events : List PoolEvent) (p q : Pool)
    (hq : p.run validUrl events = some q) :
    q.created.length ≤ p.created.length + events.count .tick := by
  induction events generalizing p with
  | nil =>
    simp only [Pool.run, Option.some.injEq] at hq
    subst hq
    simp
  | cons e es ih =>
    simp only [Pool.run] at hq
    split at hq
    · rename_i p1 hp1
      have h1 := created_length_step validUrl p p1 e hp1
      have h2 := ih p1 hq
      rw [List.count_cons]
      by_cases he : e = .tick
      · simp only [he, if_true] at h1
        simp only [he, beq_self_eq_true, if_true]
        omega
      · simp only [he, if_false] at h1
        have : (e == PoolEvent.tick) = false := by simpa using he
        simp only [this]
        simp only [Bool.false_eq_true, if_false]
        omega
    · cases hq

/-- C4, amended: from a ring, no socket and no live connection, after any sequence of
maintenance ticks and socket events (a socket opens only while connecting and closes once),
every live connection belongs to its own socket, one that has opened and has not closed; so
the live-connection count is at most the number of sockets created so far, which is at most
the number of ticks so far. -/
theorem connections_le_sockets_created (validUrl : JSString → Bool) (ring : List Relay)
    (events : List PoolEvent) (q : Pool)
    (hq : (Pool.start ring).run validUrl events = some q) :
    q.LiveInv ∧ q.connections.length ≤ q.created.length ∧
      q.created.length ≤ events.count .tick := by
  have hinv := liveInv_run validUrl events (Pool.start ring) q (liveInv_start ring) hq
  have hlen := created_length_run validUrl events (Pool.start ring) q hq
  refine ⟨hinv, liveInv_length_le q hinv, ?_⟩
  simpa [Pool.start] using hlen

/-- The bound on live connections in the state reached by two ticks and two open events on a
ring of one relay. -/
theorem connections_le_sockets_created_witness :
    (Pool.start [relayNostrNet]).run (fun _ => true) [.tick, .tick, .opened 0, .opened 1] =
      some twoSocketsOpen ∧
    twoSocketsOpen.connections.length ≤ twoSocketsOpen.created.length ∧
    twoSocketsOpen.created.length ≤
      [PoolEvent.tick, .tick, .opened 0, .opened 1].count .tick :=
  ⟨by decide,
    (connections_le_sockets_created (fun _ => true) [relayNostrNet]
      [.tick, .tick, .opened 0, .opened 1] twoSocketsOpen (by decide)).2⟩

/-! ## subscribeToData -/

theorem mapGet_mapSet_self {V : Type} (m : List (JSString × V)) (k : JSString) (v : V) :
    mapGet (mapSet m k v) k = some v := by
  unfold mapSet mapGet
  induction m with
  | nil => simp
  | cons e es ih =>
    by_cases hk : e.1 = k
    · simp [hk]
    · have hk2 : (e.1 == k) = false := by simpa using hk
      simp only [List.any_cons, hk2, Bool.false_or, List.map_cons, if_false,
        Bool.false_eq_true, List.cons_append] at ih ⊢
      split
      · rename_i hany
        simp only [hany, if_true] at ih
        simp only [List.find?_cons, hk2]
        exact ih
      · rename_i hany
        simp only [hany, if_false, Bool.false_eq_true] at ih
        simp only [List.find?_cons, hk2]
        exact ih

theorem find_map_replace {V : Type} (m : List (JSString × V)) (k k2 : JSString) (v : V)
    (hne : k2 ≠ k) :
    List.find? (fun e => e.1 == k2) (m.map (fun e => if e.1 == k then (k, v) else e)) =
      List.find? (fun e => e.1 == k2) m := by
  have hkk : (k == k2) = false := by
    simp only [beq_eq_false_iff_ne, ne_eq]
    exact fun e => hne e.symm
  induction m with
  | nil => rfl
  | cons e es ih =>
    simp only [List.map_cons, List.find?_cons]
    by_cases hk : e.1 = k
    · have hk3 : (e.1 == k2) = false := by
        simp only [beq_eq_false_iff_ne, ne_eq]
        rw [hk]
        exact fun h => hne h.symm
      have hk4 : (e.1 == k) = true := by simpa using hk
      simp only [hk4, if_true, hkk, hk3]
      exact ih
    · have hk2 : (e.1 == k) = false := by simpa using hk
      simp only [hk2, Bool.false_eq_true, if_false]
      split
      · rfl
      · exact ih

theorem mapGet_mapSet_ne {V : Type} (m : List (JSString × V)) (k k2 : JSString) (v : V)
    (hne : k2 ≠ k) : mapGet (mapSet m k v) k2 = mapGet m k2 := by
  have hkk : (k == k2) = false := by
    simp only [beq_eq_false_iff_ne, ne_eq]
    exact fun e => hne e.symm
  unfold mapSet mapGet
  split
  · rw [find_map_replace m k k2 v hne]
  · congr 1
    rw [List.find?_append]
    simp only [List.find?_cons, hkk, List.find?_nil]
    cases List.find? (fun e => e.1 == k2) m <;> rfl

theorem randomUnits_length (draw : RandomSource) (n pos : Nat) :
    (randomUnits draw n pos).length = n := by
  induction n generalizing pos with
  | zero => rfl
  | succ n ih => simp [randomUnits, ih]

theorem randomUnits_mem_charSet (draw : RandomSource) (n pos : Nat) :
    ∀ u ∈ randomUnits draw n pos, u ∈ charSet := by
  induction n generalizing pos with
  | zero => simp [randomUnits]
  | succ n ih =>
    intro u hu
    simp only [randomUnits, List.mem_cons] at hu
    rcases hu with hu | hu
    · have hlen : (draw pos).val < charSet.length := by
        have : charSet.length = 62 := by decide
        rw [this]
        exact (draw pos).isLt
      rw [List.getElem?_eq_getElem hlen] at hu
      simp only [Option.getD_some] at hu
      rw [hu]
      exact List.getElem_mem hlen
    · exact ih (pos + 1) u hu

/-- C5, as stated: with a random source that repeats its draws, the second subscription
returns the id of the first, an id registered when it was called, and the handler registered
under that id is replaced. -/
theorem subscribeToData_id_not_fresh :
    mapGet firstSubscription.registry.handlers secondSubscription.subscriptionId = some 1 ∧
    secondSubscription.subscriptionId = firstSubscription.subscriptionId ∧
    mapGet secondSubscription.registry.handlers firstSubscription.subscriptionId = some 2 := by
  decide

/-- C5, amended: the id `subscribeToData` returns is the 64 characters of `charSet` given by
the next 64 random draws, whatever ids are registered: no comparison and no retry is made.
The handler is stored under that id, the handler of every other id is unchanged, and an id
already registered has its handler replaced. -/
theorem subscribeToData_id_from_draws {H : Type} (draw : RandomSource) (now : Int) (pool : Pool)
    (r : Registry H) (tag topic : JSString) (handler : H) :
    (subscribeToData draw now pool r tag topic handler).subscriptionId =
      randomUnits draw 64 r.drawn ∧
    (subscribeToData draw now pool r tag topic handler).subscriptionId.length = 64 ∧
    (∀ u ∈ (subscribeToData draw now pool r tag topic handler).subscriptionId, u ∈ charSet) ∧
    mapGet (subscribeToData draw now pool r tag topic handler).registry.handlers
      (randomUnits draw 64 r.drawn) = some handler ∧
    (∀ k, k ≠ randomUnits draw 64 r.drawn →
      mapGet (subscribeToData draw now pool r tag topic handler).registry.handlers k =
        mapGet r.handlers k) := by
  refine ⟨rfl, ?_, ?_, ?_, ?_⟩
  · exact randomUnits_length draw 64 r.drawn
  · exact randomUnits_mem_charSet draw 64 r.drawn
  · exact mapGet_mapSet_self _ _ _
  · intro k hk
    exact mapGet_mapSet_ne _ _ _ _ hk

theorem refMapSet_addr (m : List (PairArray × JSString)) (k : PairArray) (v : JSString) :
    ∀ e ∈ refMapSet m k v, e.1.addr = k.addr ∨ ∃ e2 ∈ m, e.1.addr = e2.1.addr := by
  intro e he
  unfold refMapSet at he
  split at he
  · obtain ⟨e2, he2, hmap⟩ := List.mem_map.mp he
    split at hmap
    · exact Or.inr ⟨e2, he2, by rw [← hmap]⟩
    · exact Or.inr ⟨e2, he2, by rw [hmap]⟩
  · rcases List.mem_append.mp he with h | h
    · exact Or.inr ⟨e, h, rfl⟩
    · simp only [List.mem_singleton] at h
      subst h
      exact Or.inl rfl

theorem lookupTagTopic_after_subscribe {H : Type} (draw : RandomSource) (now : Int)
    (pool : Pool) (r : Registry H) (tag topic tag2 topic2 : JSString) (handler : H)
    (hinv : ∀ e ∈ r.tagtopicToSubscriptionId, e.1.addr < r.allocated) :
    lookupTagTopic (subscribeToData draw now pool r tag topic handler).registry tag2 topic2 =
      none := by
  have hall : ∀ e ∈ refMapSet r.tagtopicToSubscriptionId ⟨r.allocated, tag, topic⟩
      (generateRandomId draw r.drawn 64).1, ¬ e.1.addr = r.allocated + 1 + 1 := by
    intro e he
    rcases refMapSet_addr _ _ _ e he with h | ⟨e2, he2, h⟩
    · simp only at h
      omega
    · have := hinv e2 he2
      omega
  show refMapGet _ _ = none
  unfold refMapGet
  rw [Option.map_eq_none', List.find?_eq_none]
  intro e he
  simpa [subscribeToData, addHandler] using hall e he

/-- C7: after `subscribeToData('t', 'demo', handler)` on a module just loaded, the id is
found in `subscriptionIdTotagtopic` with the pair and in `connectionManager.handlers` with the
handler, but the lookup of `['t', 'demo']` in `tagtopicToSubscriptionId` finds nothing: the
key stored is another array object. -/
theorem tagtopic_lookup_misses :
    mapGet firstSubscription.registry.subscriptionIdTotagtopic firstSubscription.subscriptionId =
      some { addr := 1, tag := lit "t", topic := lit "demo" } ∧
    mapGet firstSubscription.registry.handlers firstSubscription.subscriptionId = some 1 ∧
    firstSubscription.registry.tagtopicToSubscriptionId =
      [({ addr := 0, tag := lit "t", topic := lit "demo" }, firstSubscription.subscriptionId)] ∧
    lookupTagTopic firstSubscription.registry (lit "t") (lit "demo") = none := by
  decide

/-! ## Numbers and strings through JSON.stringify and JSON.parse -/

theorem natToRadix_fuel (r : Nat) (hr : 2 ≤ r) (f1 f2 n : Nat) (h1 : n < f1) (h2 : n < f2) :
    natToRadix r f1 n = natToRadix r f2 n := by
  induction f1 generalizing f2 n with
  | zero => omega
  | succ f1 ih =>
    cases f2 with
    | zero => omega
    | succ f2 =>
      simp only [natToRadix]
      split
      · rfl
      · have hdiv : n / r < n := Nat.div_lt_self (by omega) (by omega)
        rw [ih f2 (n / r) (by omega) (by omega)]

theorem natToString_eq (r : Nat) (hr : 2 ≤ r) (n : Nat) :
    natToString r n =
      if n < r then [digitUnit n] else natToString r (n / r) ++ [digitUnit (n % r)] := by
  unfold natToString
  rw [natToRadix]
  split
  · rfl
  · have hdiv : n / r < n := Nat.div_lt_self (by omega) (by omega)
    rw [natToRadix_fuel r hr n (n / r + 1) (n / r) hdiv (by omega)]

theorem hexVal_digitUnit (d : Nat) (h : d < 16) : hexVal (digitUnit d) = some d := by
  unfold digitUnit hexVal
  split
  · have h1 : 48 ≤ 48 + d ∧ 48 + d ≤ 57 := by omega
    simp [h1]
  · have h1 : ¬ (48 ≤ 87 + d ∧ 87 + d ≤ 57) := by omega
    have h2 : 97 ≤ 87 + d ∧ 87 + d ≤ 102 := by omega
    simp [h1, h2]

theorem natToString16_one (n : Nat) (h : n < 16) : natToString 16 n = [digitUnit n] := by
  rw [natToString_eq 16 (by decide), if_pos h]

theorem natToString16_two (n : Nat) (h1 : ¬ n < 16) (h2 : n / 16 < 16) :
    natToString 16 n = [digitUnit (n / 16), digitUnit (n % 16)] := by
  rw [natToString_eq 16 (by decide), if_neg h1, natToString16_one _ h2]
  rfl

theorem natToString16_three (n : Nat) (h1 : ¬ n < 16) (h2 : ¬ n / 16 < 16)
    (h3 : n / 16 / 16 < 16) :
    natToString 16 n = [digitUnit (n / 16 / 16), digitUnit (n / 16 % 16), digitUnit (n % 16)] := by
  rw [natToString_eq 16 (by decide), if_neg h1, natToString16_two _ h2 h3]
  rfl

theorem natToString16_four (u : Nat) (h : u < 65536) :
    padStart 4 (lit "0") (natToString 16 u) =
      [digitUnit (u / 4096), digitUnit (u / 256 % 16), digitUnit (u / 16 % 16),
        digitUnit (u % 16)] := by
  have d2 : u / 16 / 16 = u / 256 := by rw [Nat.div_div_eq_div_mul]
  have d3 : u / 16 / 16 / 16 = u / 4096 := by
    rw [Nat.div_div_eq_div_mul, Nat.div_div_eq_div_mul]
  have hz : lit "0" = [48] := by decide
  have hd0 : digitUnit 0 = 48 := by decide
  by_cases c1 : u < 16
  · have a1 : u / 4096 = 0 := by omega
    have a2 : u / 256 % 16 = 0 := by omega
    have a3 : u / 16 % 16 = 0 := by omega
    have a4 : u % 16 = u := by omega
    rw [natToString16_one u c1, a1, a2, a3, a4, hd0, hz]
    rfl
  · by_cases c2 : u / 16 < 16
    · have a1 : u / 4096 = 0 := by omega
      have a2 : u / 256 % 16 = 0 := by omega
      have a3 : u / 16 % 16 = u / 16 := by omega
      rw [natToString16_two u c1 c2, a1, a2, a3, hd0, hz]
      rfl
    · by_cases c3 : u / 16 / 16 < 16
      · have a1 : u / 4096 = 0 := by omega
        have a2 : u / 256 % 16 = u / 256 := by omega
        rw [natToString16_three u c1 c2 c3, a1, a2, d2, hd0, hz]
        rfl
      · have c4 : u / 16 / 16 / 16 < 16 := by omega
        have a2 : u / 16 / 16 % 16 = u / 256 % 16 := by rw [d2]
        rw [natToString_eq 16 (by decide), if_neg c1, natToString16_three _ c2 c3 c4, d3, a2]
        rfl

theorem parseStringBody_hex (u : Nat) (h : u < 65536) (out tail : JSString) :
    parseStringBody .normal out (unicodeEscape u ++ tail) =
      parseStringBody .normal (out ++ [u]) tail := by
  unfold unicodeEscape
  rw [natToString16_four u h]
  have h3 : u / 4096 < 16 := by omega
  have h2 : u / 256 % 16 < 16 := Nat.mod_lt _ (by decide)
  have h1 : u / 16 % 16 < 16 := Nat.mod_lt _ (by decide)
  have h0 : u % 16 < 16 := Nat.mod_lt _ (by decide)
  have hu : ((u / 4096 * 16 + u / 256 % 16) * 16 + u / 16 % 16) * 16 + u % 16 = u := by
    omega
  simp only [List.cons_append, List.nil_append, parseStringBody, hexVal_digitUnit _ h3,
    hexVal_digitUnit _ h2, hexVal_digitUnit _ h1, hexVal_digitUnit _ h0]
  simp [hu]

theorem parseStringBody_quoteUnit (u : Nat) (out tail : JSString) :
    parseStringBody .normal out (quoteUnit u ++ tail) =
      parseStringBody .normal (out ++ [u]) tail := by
  unfold quoteUnit
  split
  · rename_i h; subst h; simp [parseStringBody]
  split
  · rename_i h; subst h; simp [parseStringBody]
  split
  · rename_i h; subst h; simp [parseStringBody]
  split
  · rename_i h; subst h; simp [parseStringBody]
  split
  · rename_i h; subst h; simp [parseStringBody]
  split
  · rename_i h; subst h; simp [parseStringBody]
  split
  · rename_i h; subst h; simp [parseStringBody]
  split
  · rename_i h
    exact parseStringBody_hex u (by omega) out tail
  split
  · rename_i h
    have hu : u < 65536 := by
      simp only [isHighSurrogate, isLowSurrogate, Bool.or_eq_true, decide_eq_true_eq] at h
      omega
    exact parseStringBody_hex u hu out tail
  · rename_i h1 h2 h3 h4
    simp [parseStringBody, h1, h2, h3]

theorem parseStringBody_quoteUnits (s : JSString) :
    ∀ (out rest : JSString),
      parseStringBody .normal out (quoteUnits s ++ 34 :: rest) = some (out ++ s, rest) := by
  induction s using quoteUnits.induct with
  | case1 => intro out rest; simp [quoteUnits, parseStringBody]
  | case2 u =>
    intro out rest
    rw [quoteUnits, parseStringBody_quoteUnit]
    simp [parseStringBody]
  | case3 u v rest2 hpair ih =>
    intro out rest
    rw [quoteUnits]
    simp only [hpair, if_true]
    simp only [Bool.and_eq_true, isHighSurrogate, isLowSurrogate, decide_eq_true_eq] at hpair
    have hu1 : u ≠ 34 := by omega
    have hu2 : u ≠ 92 := by omega
    have hu3 : ¬ u < 32 := by omega
    have hv1 : v ≠ 34 := by omega
    have hv2 : v ≠ 92 := by omega
    have hv3 : ¬ v < 32 := by omega
    simp only [List.cons_append, parseStringBody, hu1, hu2, hu3, hv1, hv2, hv3, if_false]
    show parseStringBody .normal (out ++ [u] ++ [v]) (quoteUnits rest2 ++ 34 :: rest) = _
    rw [ih]
    simp
  | case4 u v rest2 hpair ih =>
    intro out rest
    rw [quoteUnits]
    simp only [hpair, if_false, Bool.false_eq_true]
    rw [List.append_assoc, parseStringBody_quoteUnit, ih]
    simp

theorem parseString_quote (s rest : JSString) :
    parseString (quoteUnits s ++ 34 :: rest) = .ok s rest := by
  unfold parseString
  rw [parseStringBody_quoteUnits]
  simp

theorem natToString10_head (m : Nat) :
    ∃ u t, natToString 10 m = u :: t ∧ 48 ≤ u ∧ u ≤ 57 ∧ (u = 48 → m = 0 ∧ t = []) := by
  induction m using Nat.strong_induction_on with
  | _ m ih =>
    rw [natToString_eq 10 (by decide)]
    by_cases h : m < 10
    · refine ⟨digitUnit m, [], by simp [h], ?_, ?_, ?_⟩
      · unfold digitUnit; simp [h]
      · unfold digitUnit; simp only [h, if_true]; omega
      · intro hu
        have : m = 0 := by
          unfold digitUnit at hu; simp only [h, if_true] at hu; omega
        exact ⟨this, rfl⟩
    · obtain ⟨u, t, e, h1, h2, h3⟩ := ih (m / 10) (Nat.div_lt_self (by omega) (by decide))
      refine ⟨u, t ++ [digitUnit (m % 10)], by simp [h, e], h1, h2, ?_⟩
      intro hu
      have := (h3 hu).1
      omega

theorem parseDigits_natToString (m : Nat) :
    ∀ (acc : Nat) (rest : JSString),
      parseDigits acc (natToString 10 m ++ rest) =
        parseDigits (acc * 10 ^ (natToString 10 m).length + m) rest := by
  induction m using Nat.strong_induction_on with
  | _ m ih =>
    intro acc rest
    rw [natToString_eq 10 (by decide)]
    by_cases h : m < 10
    · have hd : isDigit (digitUnit m) = true := by
        unfold isDigit digitUnit; simp only [h, if_true, decide_eq_true_eq]; omega
      have hv : digitUnit m - 48 = m := by
        unfold digitUnit; simp only [h, if_true]; omega
      simp only [h, if_true, List.cons_append, List.nil_append, parseDigits, hd, hv,
        List.length_singleton, pow_one]
    · have hlt : m / 10 < m := Nat.div_lt_self (by omega) (by decide)
      have hm : m % 10 < 10 := Nat.mod_lt _ (by decide)
      have hd : isDigit (digitUnit (m % 10)) = true := by
        unfold isDigit digitUnit; simp only [hm, if_true, decide_eq_true_eq]; omega
      have hv : digitUnit (m % 10) - 48 = m % 10 := by
        unfold digitUnit; simp only [hm, if_true]; omega
      simp only [h, if_false, List.append_assoc, List.cons_append, List.nil_append]
      rw [ih (m / 10) hlt]
      simp only [parseDigits, hd, hv, if_true, List.length_append, List.length_singleton]
      congr 1
      rw [pow_succ]
      have := Nat.div_add_mod m 10
      calc (acc * 10 ^ (natToString 10 (m / 10)).length + m / 10) * 10 + m % 10
          = acc * (10 ^ (natToString 10 (m / 10)).length * 10) + (10 * (m / 10) + m % 10) := by
            ring
        _ = acc * (10 ^ (natToString 10 (m / 10)).length * 10) + m := by rw [this]

theorem parseDigits_stop (acc : Nat) (rest : JSString) (h : NumStop rest) :
    parseDigits acc rest = (acc, rest) := by
  cases rest with
  | nil => rfl
  | cons c cs =>
    simp only [NumStop] at h
    simp [parseDigits, h.1]

theorem finishNumber_stop (neg : Bool) (n : Nat) (rest : JSString) (h : NumStop rest)
    (hn : n ≤ maxSafe) :
    finishNumber neg n rest = .ok (.num (if neg then -(n : Int) else (n : Int))) rest := by
  cases rest with
  | nil => simp [finishNumber, hn]
  | cons c cs =>
    simp only [NumStop] at h
    simp [finishNumber, hn, h.2.1, h.2.2.1, h.2.2.2]

theorem parseNumberBody_natToString (neg : Bool) (m : Nat) (rest : JSString)
    (h : NumStop rest) (hm : m ≤ maxSafe) :
    parseNumberBody neg (natToString 10 m ++ rest) =
      .ok (.num (if neg then -(m : Int) else (m : Int))) rest := by
  obtain ⟨u, t, e, h1, h2, h3⟩ := natToString10_head m
  have hq := parseDigits_natToString m 0 rest
  rw [e] at hq ⊢
  simp only [List.cons_append, parseNumberBody]
  by_cases hu : u = 48
  · obtain ⟨hm0, ht⟩ := h3 hu
    subst hm0 ht
    simp only [hu, if_true, List.nil_append]
    exact finishNumber_stop neg 0 rest h (by decide)
  · have hd : isDigit u = true := by
      unfold isDigit; simp only [decide_eq_true_eq]; omega
    simp only [hu, if_false, hd, if_true]
    simp only [List.cons_append, parseDigits, hd, if_true, Nat.zero_mul, Nat.zero_add] at hq
    have hq2 : parseDigits (u - 48) (t ++ rest) = parseDigits m rest := hq
    rw [hq2, parseDigits_stop _ _ h]
    exact finishNumber_stop neg m rest h hm

theorem parseNumber_intToString (n : Int) (rest : JSString) (h : NumStop rest)
    (hn : n.natAbs ≤ maxSafe) :
    parseNumber (intToString n ++ rest) = .ok (.num n) rest := by
  unfold intToString
  by_cases hneg : n < 0
  · simp only [hneg, if_true, List.cons_append, parseNumber]
    rw [parseNumberBody_natToString true n.natAbs rest h hn]
    simp only [if_true]
    congr 2
    omega
  · obtain ⟨u, t, e, h1, h2, _⟩ := natToString10_head n.natAbs
    have hb := parseNumberBody_natToString false n.natAbs rest h hn
    simp only [hneg, if_false]
    rw [e] at hb ⊢
    have hu : u ≠ 45 := by omega
    simp only [List.cons_append, parseNumber, hu, if_false]
    simp only [List.cons_append] at hb
    rw [hb]
    simp only [Bool.false_eq_true, if_false]
    congr 2
    omega

/-! ## JSON.parse after JSON.stringify -/

theorem intToString_head (n : Int) :
    ∃ u t, intToString n = u :: t ∧ (u = 45 ∨ (48 ≤ u ∧ u ≤ 57)) := by
  unfold intToString
  split
  · exact ⟨45, _, rfl, Or.inl rfl⟩
  · obtain ⟨u, t, e, h1, h2, _⟩ := natToString10_head n.natAbs
    exact ⟨u, t, e, Or.inr ⟨h1, h2⟩⟩

theorem serializeProperty_head (v : Val) (s : JSString) (h : serializeProperty v = some s) :
    ∃ u t, s = u :: t ∧ isWs u = false ∧ u ≠ 93 ∧ u ≠ 125 ∧ u ≠ 44 := by
  cases v with
  | undefined => simp [serializeProperty] at h
  | null =>
    simp only [serializeProperty, Option.some.injEq] at h
    subst h
    exact ⟨110, _, rfl, by decide, by decide, by decide, by decide⟩
  | bool b =>
    cases b <;> simp only [serializeProperty, Option.some.injEq] at h <;> subst h
    · exact ⟨102, _, rfl, by decide, by decide, by decide, by decide⟩
    · exact ⟨116, _, rfl, by decide, by decide, by decide, by decide⟩
  | num n =>
    simp only [serializeProperty, Option.some.injEq] at h
    subst h
    obtain ⟨u, t, e, hu⟩ := intToString_head n
    refine ⟨u, t, e, ?_, ?_, ?_, ?_⟩
    · unfold isWs
      rcases hu with hu | hu
      · subst hu; decide
      · have a : (u == 32) = false := by simp; omega
        have b : (u == 9) = false := by simp; omega
        have c : (u == 10) = false := by simp; omega
        have d : (u == 13) = false := by simp; omega
        simp [a, b, c, d]
    · omega
    · omega
    · omega
  | str t =>
    simp only [serializeProperty, Option.some.injEq] at h
    subst h
    exact ⟨34, _, rfl, by decide, by decide, by decide, by decide⟩
  | arr xs =>
    simp only [serializeProperty, Option.some.injEq] at h
    subst h
    exact ⟨91, _, rfl, by decide, by decide, by decide, by decide⟩
  | obj ps =>
    simp only [serializeProperty, Option.some.injEq] at h
    subst h
    exact ⟨123, _, rfl, by decide, by decide, by decide, by decide⟩

theorem serializeProperty_plain (v : Val) (h : v.Plain) : ∃ s, serializeProperty v = some s := by
  cases v with
  | undefined => simp [Val.Plain] at h
  | null => exact ⟨_, rfl⟩
  | bool b => cases b <;> exact ⟨_, rfl⟩
  | num n => exact ⟨_, rfl⟩
  | str t => exact ⟨_, rfl⟩
  | arr xs => exact ⟨[91] ++ joinComma (serializeElements xs) ++ [93], by rw [serializeProperty]⟩
  | obj ps => exact ⟨[123] ++ joinComma (serializeMembers ps) ++ [125], by rw [serializeProperty]⟩

theorem buildObject_foldl (ps acc : List (JSString × Val))
    (hnd : (ps.map Prod.fst).Nodup) (hdis : ∀ k ∈ ps.map Prod.fst, k ∉ acc.map Prod.fst) :
    ps.foldl (fun o m => mapSet o m.1 m.2) acc = acc ++ ps := by
  induction ps generalizing acc with
  | nil => simp
  | cons e es ih =>
    simp only [List.map_cons, List.nodup_cons] at hnd
    have hnot : acc.any (fun x => x.1 == e.1) = false := by
      have := hdis e.1 (by simp)
      simp only [List.mem_map, not_exists, not_and] at this
      rw [List.any_eq_false]
      intro x hx
      simp only [beq_iff_eq]
      exact fun hxe => this x hx hxe
    rw [List.foldl_cons]
    have hset : mapSet acc e.1 e.2 = acc ++ [e] := by
      unfold mapSet
      simp [hnot]
    rw [hset, ih (acc ++ [e]) hnd.2]
    · simp
    · intro k hk
      simp only [List.map_append, List.map_cons, List.map_nil, List.mem_append,
        List.mem_singleton, not_or]
      refine ⟨hdis k (by simp [hk]), ?_⟩
      intro hke
      subst hke
      exact hnd.1 hk

theorem buildObject_nodup (ps : List (JSString × Val)) (hnd : (ps.map Prod.fst).Nodup) :
    buildObject ps = ps := by
  unfold buildObject
  rw [buildObject_foldl ps [] hnd (by simp)]
  simp

theorem joinComma_cons (s : JSString) (l : List JSString) :
    joinComma (s :: l) = if l = [] then s else s ++ 44 :: joinComma l := by
  cases l with
  | nil => simp [joinComma]
  | cons t ts => simp [joinComma]

theorem parseValue_array_step (f u : Nat) (t : JSString) (hw : isWs u = false) (hu : u ≠ 93) :
    parseValue (f + 1) (91 :: u :: t) =
      match parseElements f (u :: t) with
      | .ok xs r2 => .ok (.arr xs) r2
      | .syntaxError => .syntaxError
      | .unmodelled => .unmodelled
      | .outOfFuel => .outOfFuel := by
  have h91 : isWs 91 = false := by decide
  rw [parseValue]
  simp only [skipWs, h91, hw, hu, if_false, Bool.false_eq_true]
  simp

theorem parseValue_object_step (f u : Nat) (t : JSString) (hw : isWs u = false)
    (hu : u ≠ 125) :
    parseValue (f + 1) (123 :: u :: t) =
      match parseMembers f (u :: t) with
      | .ok ps r2 => .ok (.obj (buildObject ps)) r2
      | .syntaxError => .syntaxError
      | .unmodelled => .unmodelled
      | .outOfFuel => .outOfFuel := by
  have h123 : isWs 123 = false := by decide
  rw [parseValue]
  simp only [skipWs, h123, hw, hu, if_false, Bool.false_eq_true]
  simp

theorem parseElements_last (f : Nat) (s rest : JSString) (v : Val)
    (h : parseValue f s = .ok v (93 :: rest)) :
    parseElements (f + 1) s = .ok [v] rest := by
  have h93 : isWs 93 = false := by decide
  rw [parseElements, h]
  simp [skipWs, h93]

theorem parseElements_more (f : Nat) (s r2 rest : JSString) (v : Val) (vs : List Val)
    (h : parseValue f s = .ok v (44 :: r2)) (h2 : parseElements f r2 = .ok vs rest) :
    parseElements (f + 1) s = .ok (v :: vs) rest := by
  have h44 : isWs 44 = false := by decide
  rw [parseElements, h]
  simp [skipWs, h44, h2]

theorem parseMembers_last (f : Nat) (key s rest : JSString) (v : Val)
    (h : parseValue f s = .ok v (125 :: rest)) :
    parseMembers (f + 1) (quoteJSONString key ++ 58 :: s) = .ok [(key, v)] rest := by
  have h34 : isWs 34 = false := by decide
  have h58 : isWs 58 = false := by decide
  have h125 : isWs 125 = false := by decide
  have hshape : quoteJSONString key ++ 58 :: s = 34 :: (quoteUnits key ++ 34 :: 58 :: s) := by
    simp [quoteJSONString]
  rw [hshape, parseMembers]
  simp only [skipWs, h34, if_false, Bool.false_eq_true, if_true]
  rw [parseString_quote]
  simp [skipWs, h58, h, h125]

theorem parseMembers_more (f : Nat) (key s r2 rest : JSString) (v : Val)
    (ms : List (JSString × Val))
    (h : parseValue f s = .ok v (44 :: r2)) (h2 : parseMembers f r2 = .ok ms rest) :
    parseMembers (f + 1) (quoteJSONString key ++ 58 :: s) = .ok ((key, v) :: ms) rest := by
  have h34 : isWs 34 = false := by decide
  have h58 : isWs 58 = false := by decide
  have h44 : isWs 44 = false := by decide
  have hshape : quoteJSONString key ++ 58 :: s = 34 :: (quoteUnits key ++ 34 :: 58 :: s) := by
    simp [quoteJSONString]
  rw [hshape, parseMembers]
  simp only [skipWs, h34, if_false, Bool.false_eq_true, if_true]
  rw [parseString_quote]
  simp [skipWs, h58, h, h44, h2]

theorem serializeElements_eq_nil (xs : List Val) : serializeElements xs = [] ↔ xs = [] := by
  cases xs <;> simp [serializeElements]

theorem serializeMembers_plain_eq_nil (ps : List (JSString × Val)) (h : PlainProps ps) :
    serializeMembers ps = [] ↔ ps = [] := by
  cases ps with
  | nil => simp [serializeMembers]
  | cons e es =>
    obtain ⟨k, v⟩ := e
    simp only [PlainProps] at h
    obtain ⟨s, hs⟩ := serializeProperty_plain v h.1
    simp [serializeMembers, hs]

mutual
theorem parseValue_serialize : ∀ (v : Val), v.Plain → ∀ (s rest : JSString) (f : Nat),
    serializeProperty v = some s → NumStop rest → s.length ≤ f →
    parseValue f (s ++ rest) = .ok v rest
  | .undefined, hp, _, _, _, _, _, _ => by simp [Val.Plain] at hp
  | .null, _, s, rest, f, hs, _, hf => by
    simp only [serializeProperty, Option.some.injEq] at hs
    subst hs
    obtain ⟨g, rfl⟩ : ∃ g, f = g + 1 :=
      ⟨f - 1, by have : (lit "null").length = 4 := by decide
                 omega⟩
    have e : lit "null" = [110, 117, 108, 108] := by decide
    have e2 : lit "ull" = [117, 108, 108] := by decide
    have hw : isWs 110 = false := by decide
    rw [parseValue, e, e2]
    simp [skipWs, hw, dropLit]
  | .bool true, _, s, rest, f, hs, _, hf => by
    simp only [serializeProperty, Option.some.injEq] at hs
    subst hs
    obtain ⟨g, rfl⟩ : ∃ g, f = g + 1 :=
      ⟨f - 1, by have : (lit "true").length = 4 := by decide
                 omega⟩
    have e : lit "true" = [116, 114, 117, 101] := by decide
    have e2 : lit "rue" = [114, 117, 101] := by decide
    have hw : isWs 116 = false := by decide
    rw [parseValue, e, e2]
    simp [skipWs, hw, dropLit]
  | .bool false, _, s, rest, f, hs, _, hf => by
    simp only [serializeProperty, Option.some.injEq] at hs
    subst hs
    obtain ⟨g, rfl⟩ : ∃ g, f = g + 1 :=
      ⟨f - 1, by have : (lit "false").length = 5 := by decide
                 omega⟩
    have e : lit "false" = [102, 97, 108, 115, 101] := by decide
    have e2 : lit "alse" = [97, 108, 115, 101] := by decide
    have hw : isWs 102 = false := by decide
    rw [parseValue, e, e2]
    simp [skipWs, hw, dropLit]
  | .num n, hp, s, rest, f, hs, hstop, hf => by
    simp only [serializeProperty, Option.some.injEq] at hs
    subst hs
    obtain ⟨u, t, e, hu⟩ := intToString_head n
    obtain ⟨g, rfl⟩ : ∃ g, f = g + 1 :=
      ⟨f - 1, by rw [e] at hf; simp at hf; omega⟩
    have hnum := parseNumber_intToString n rest hstop (by simpa [Val.Plain] using hp)
    rw [e] at hnum ⊢
    have hw : isWs u = false := by
      unfold isWs
      rcases hu with hu | hu
      · subst hu; decide
      · have a : (u == 32) = false := by simp; omega
        have b : (u == 9) = false := by simp; omega
        have c : (u == 10) = false := by simp; omega
        have d : (u == 13) = false := by simp; omega
        simp [a, b, c, d]
    have h1 : u ≠ 110 := by omega
    have h2 : u ≠ 116 := by omega
    have h3 : u ≠ 102 := by omega
    have h4 : u ≠ 34 := by omega
    have h5 : u ≠ 91 := by omega
    have h6 : u ≠ 123 := by omega
    rw [parseValue]
    simp only [List.cons_append, skipWs, hw, h1, h2, h3, h4, h5, h6, if_false,
      Bool.false_eq_true]
    exact hnum
  | .str t, _, s, rest, f, hs, _, hf => by
    simp only [serializeProperty, Option.some.injEq] at hs
    subst hs
    obtain ⟨g, rfl⟩ : ∃ g, f = g + 1 :=
      ⟨f - 1, by simp [quoteJSONString] at hf; omega⟩
    have hw : isWs 34 = false := by decide
    have hshape : quoteJSONString t ++ rest = 34 :: (quoteUnits t ++ 34 :: rest) := by
      simp [quoteJSONString]
    rw [hshape, parseValue]
    simp only [skipWs, hw, if_false, Bool.false_eq_true]
    rw [parseString_quote]
    simp
  | .arr xs, hp, s, rest, f, hs, _, hf => by
    simp only [serializeProperty, Option.some.injEq] at hs
    subst hs
    obtain ⟨g, rfl⟩ : ∃ g, f = g + 1 := ⟨f - 1, by simp at hf; omega⟩
    cases hxs : xs with
    | nil =>
      have hw : isWs 91 = false := by decide
      have hw2 : isWs 93 = false := by decide
      rw [parseValue]
      simp [serializeElements, joinComma, skipWs, hw, hw2]
    | cons x xs2 =>
      have hne : xs ≠ [] := by rw [hxs]; simp
      have hplain : PlainList xs := by simpa [Val.Plain] using hp
      have hrec := parseElements_serialize xs hplain hne rest g (by simp at hf; omega)
      rw [← hxs]
      rw [hxs] at hplain
      obtain ⟨sx, hsx⟩ := serializeProperty_plain x (by simp only [PlainList] at hplain; exact hplain.1)
      obtain ⟨u, t, hut, hw, hu93, _⟩ := serializeProperty_head x sx hsx
      have hj : ∃ t2, joinComma (serializeElements xs) ++ 93 :: rest = u :: t2 := by
        rw [hxs, serializeElements, hsx, joinComma_cons, hut]
        split <;> exact ⟨_, rfl⟩
      obtain ⟨t2, ht2⟩ := hj
      have hshape : ([91] ++ joinComma (serializeElements xs) ++ [93]) ++ rest = 91 :: u :: t2 := by
        rw [← ht2]; simp
      rw [hshape, parseValue_array_step g u t2 hw hu93, ← ht2, hrec]
  | .obj ps, hp, s, rest, f, hs, _, hf => by
    simp only [serializeProperty, Option.some.injEq] at hs
    subst hs
    obtain ⟨g, rfl⟩ : ∃ g, f = g + 1 := ⟨f - 1, by simp at hf; omega⟩
    have hplain : PlainProps ps ∧ (ps.map Prod.fst).Nodup := by simpa [Val.Plain] using hp
    cases hps : ps with
    | nil =>
      have hw : isWs 123 = false := by decide
      have hw2 : isWs 125 = false := by decide
      rw [parseValue]
      simp [serializeMembers, joinComma, skipWs, hw, hw2]
    | cons e es =>
      have hne : ps ≠ [] := by rw [hps]; simp
      have hrec := parseMembers_serialize ps hplain.1 hne rest g (by simp at hf; omega)
      rw [← hps]
      have hj : ∃ t2, joinComma (serializeMembers ps) ++ 125 :: rest = 34 :: t2 := by
        obtain ⟨k, v⟩ := e
        have hpl := hplain.1
        rw [hps] at hpl
        simp only [PlainProps] at hpl
        obtain ⟨sv, hsv⟩ := serializeProperty_plain v hpl.1
        rw [hps, serializeMembers, hsv, joinComma_cons]
        split <;> exact ⟨_, rfl⟩
      obtain ⟨t2, ht2⟩ := hj
      have hshape : ([123] ++ joinComma (serializeMembers ps) ++ [125]) ++ rest =
          123 :: 34 :: t2 := by
        rw [← ht2]; simp
      rw [hshape, parseValue_object_step g 34 t2 (by decide) (by decide), ← ht2, hrec]
      simp only
      rw [buildObject_nodup ps hplain.2]
theorem parseElements_serialize : ∀ (xs : List Val), PlainList xs → xs ≠ [] →
    ∀ (rest : JSString) (f : Nat), (joinComma (serializeElements xs)).length + 1 ≤ f →
    parseElements f (joinComma (serializeElements xs) ++ 93 :: rest) = .ok xs rest
  | [], _, hne, _, _, _ => absurd rfl hne
  | x :: xs, hp, _, rest, f, hf => by
    simp only [PlainList] at hp
    obtain ⟨sx, hsx⟩ := serializeProperty_plain x hp.1
    obtain ⟨u, t, hut, _⟩ := serializeProperty_head x sx hsx
    have hlen : 1 ≤ sx.length := by rw [hut]; simp
    obtain ⟨g, rfl⟩ : ∃ g, f = g + 1 := ⟨f - 1, by omega⟩
    rw [serializeElements, hsx, joinComma_cons] at hf ⊢
    by_cases hxs : xs = []
    · subst hxs
      simp only [serializeElements, if_true] at hf ⊢
      apply parseElements_last
      exact parseValue_serialize x hp.1 sx (93 :: rest) g hsx (by simp [NumStop, isDigit])
        (by omega)
    · have hnil : ¬ serializeElements xs = [] := by
        rw [serializeElements_eq_nil]; exact hxs
      simp only [hnil, if_false, List.length_append, List.length_cons] at hf ⊢
      rw [List.append_assoc, List.cons_append]
      apply parseElements_more g _ (joinComma (serializeElements xs) ++ 93 :: rest)
      · exact parseValue_serialize x hp.1 sx _ g hsx (by simp [NumStop, isDigit]) (by omega)
      · exact parseElements_serialize xs hp.2 hxs rest g (by omega)
theorem parseMembers_serialize : ∀ (ps : List (JSString × Val)), PlainProps ps → ps ≠ [] →
    ∀ (rest : JSString) (f : Nat), (joinComma (serializeMembers ps)).length + 1 ≤ f →
    parseMembers f (joinComma (serializeMembers ps) ++ 125 :: rest) = .ok ps rest
  | [], _, hne, _, _, _ => absurd rfl hne
  | (k, v) :: ps, hp, _, rest, f, hf => by
    simp only [PlainProps] at hp
    obtain ⟨sv, hsv⟩ := serializeProperty_plain v hp.1
    obtain ⟨g, rfl⟩ : ∃ g, f = g + 1 := ⟨f - 1, by omega⟩
    rw [serializeMembers, hsv] at hf ⊢
    simp only at hf ⊢
    rw [joinComma_cons] at hf ⊢
    by_cases hps : ps = []
    · subst hps
      simp only [serializeMembers, if_true] at hf ⊢
      rw [List.append_assoc, List.append_assoc, List.cons_append, List.nil_append]
      apply parseMembers_last
      exact parseValue_serialize v hp.1 sv (125 :: rest) g hsv (by simp [NumStop, isDigit])
        (by simp at hf; omega)
    · have hnil : ¬ serializeMembers ps = [] := by
        rw [serializeMembers_plain_eq_nil ps hp.2]; exact hps
      simp only [hnil, if_false, List.length_append, List.length_cons] at hf ⊢
      rw [List.append_assoc, List.append_assoc, List.append_assoc, List.cons_append,
        List.nil_append, List.cons_append]
      apply parseMembers_more g k _ (joinComma (serializeMembers ps) ++ 125 :: rest)
      · exact parseValue_serialize v hp.1 sv _ g hsv (by simp [NumStop, isDigit]) (by omega)
      · exact parseMembers_serialize ps hp.2 hps rest g (by omega)
end

theorem jsonParse_stringify (v : Val) (s : JSString) (hp : v.Plain)
    (hs : jsonStringify v = some s) : jsonParse s = .ok v [] := by
  have h := parseValue_serialize v hp s [] (2 * s.length + 2) hs (by simp [NumStop]) (by omega)
  rw [List.append_nil] at h
  unfold jsonParse
  rw [h]
  simp [skipWs]

/-! ## JSON.parse has enough fuel -/

theorem skipWs_length_le (s : JSString) : (skipWs s).length ≤ s.length := by
  induction s with
  | nil => simp [skipWs]
  | cons u s ih =>
    simp only [skipWs]
    split
    · simp only [List.length_cons]; omega
    · simp

theorem skipWs_cons_length (s t : JSString) (u : Nat) (h : skipWs s = u :: t) :
    t.length + 1 ≤ s.length := by
  have := skipWs_length_le s
  rw [h] at this
  simpa using this

theorem dropLit_length (p : JSString) :
    ∀ (s r : JSString), dropLit p s = some r → r.length ≤ s.length := by
  induction p with
  | nil => intro s r h; simp only [dropLit, Option.some.injEq] at h; subst h; exact Nat.le_refl _
  | cons a p ih =>
    intro s r h
    cases s with
    | nil => simp [dropLit] at h
    | cons u s =>
      simp only [dropLit] at h
      split at h
      · have := ih s r h
        simp only [List.length_cons]; omega
      · cases h

theorem parseStringBody_length (s : JSString) :
    ∀ (st : StrState) (out str r : JSString),
      parseStringBody st out s = some (str, r) → r.length < s.length := by
  induction s with
  | nil => intro st out str r h; cases st <;> simp [parseStringBody] at h
  | cons u s ih =>
    intro st out str r h
    cases st with
    | normal =>
      simp only [parseStringBody] at h
      repeat' split at h
      all_goals first
        | (cases h; done)
        | (simp only [List.length_cons]; have hlen := ih _ _ _ _ h; omega)
        | (cases h; simp only [List.length_cons]; omega)
    | escape =>
      simp only [parseStringBody] at h
      repeat' split at h
      all_goals first
        | cases h
        | (simp only [List.length_cons]; have hlen := ih _ _ _ _ h; omega)
    | hex k acc =>
      simp only [parseStringBody] at h
      repeat' split at h
      all_goals first
        | cases h
        | (simp only [List.length_cons]; have hlen := ih _ _ _ _ h; omega)

theorem parseString_length (s str r : JSString) (h : parseString s = .ok str r) :
    r.length < s.length := by
  unfold parseString at h
  split at h
  · rename_i a b hb
    cases h
    exact parseStringBody_length s _ _ _ _ hb
  · cases h

theorem parseString_ne_outOfFuel (s : JSString) : parseString s ≠ .outOfFuel := by
  intro h
  unfold parseString at h
  split at h <;> cases h

theorem parseDigits_length (s : JSString) :
    ∀ acc : Nat, (parseDigits acc s).2.length ≤ s.length := by
  induction s with
  | nil => intro acc; simp [parseDigits]
  | cons u s ih =>
    intro acc
    simp only [parseDigits]
    split
    · have := ih (acc * 10 + (u - 48))
      simp only [List.length_cons]; omega
    · simp

theorem finishNumber_rest (neg : Bool) (n : Nat) (rest r : JSString) (v : Val)
    (h : finishNumber neg n rest = .ok v r) : r = rest := by
  unfold finishNumber at h
  split at h
  · split at h
    · cases h
    · split at h
      · cases h; rfl
      · cases h
  · split at h
    · cases h; rfl
    · cases h

theorem finishNumber_ne_outOfFuel (neg : Bool) (n : Nat) (rest : JSString) :
    finishNumber neg n rest ≠ .outOfFuel := by
  intro h
  unfold finishNumber at h
  split at h
  · split at h
    · cases h
    · split at h <;> cases h
  · split at h <;> cases h

theorem parseNumberBody_length (neg : Bool) (s r : JSString) (v : Val)
    (h : parseNumberBody neg s = .ok v r) : r.length < s.length := by
  unfold parseNumberBody at h
  split at h
  · cases h
  · rename_i u t
    split at h
    · have := finishNumber_rest _ _ _ _ _ h
      subst this
      simp
    · split at h
      · have := finishNumber_rest _ _ _ _ _ h
        subst this
        have := parseDigits_length t (u - 48)
        simp only [List.length_cons]; omega
      · cases h

theorem parseNumberBody_ne_outOfFuel (neg : Bool) (s : JSString) :
    parseNumberBody neg s ≠ .outOfFuel := by
  intro h
  unfold parseNumberBody at h
  split at h
  · cases h
  · split at h
    · exact finishNumber_ne_outOfFuel _ _ _ h
    · split at h
      · exact finishNumber_ne_outOfFuel _ _ _ h
      · cases h

theorem parseNumber_length (s r : JSString) (v : Val) (h : parseNumber s = .ok v r) :
    r.length < s.length := by
  unfold parseNumber at h
  split at h
  · cases h
  · split at h
    · have := parseNumberBody_length _ _ _ _ h
      simp only [List.length_cons]; omega
    · exact parseNumberBody_length _ _ _ _ h

theorem parseNumber_ne_outOfFuel (s : JSString) : parseNumber s ≠ .outOfFuel := by
  intro h
  unfold parseNumber at h
  split at h
  · cases h
  · split at h <;> exact parseNumberBody_ne_outOfFuel _ _ h

theorem parse_length (f : Nat) :
    (∀ s v r, parseValue f s = .ok v r → r.length < s.length) ∧
    (∀ s vs r, parseElements f s = .ok vs r → r.length < s.length) ∧
    (∀ s ms r, parseMembers f s = .ok ms r → r.length < s.length) := by
  induction f with
  | zero =>
    refine ⟨?_, ?_, ?_⟩
    · intro s v r h; rw [parseValue] at h; cases h
    · intro s v r h; rw [parseElements] at h; cases h
    · intro s v r h; rw [parseMembers] at h; cases h
  | succ f ih =>
    obtain ⟨ihV, ihE, ihM⟩ := ih
    refine ⟨?_, ?_, ?_⟩
    · intro s v r h
      rw [parseValue] at h
      split at h
      · cases h
      · rename_i u rest hsk
        have h0 := skipWs_cons_length s rest u hsk
        repeat' split at h
        all_goals try cases h
        · have := dropLit_length _ _ _ ‹dropLit (lit "ull") rest = some _›
          omega
        · have := dropLit_length _ _ _ ‹dropLit (lit "rue") rest = some _›
          omega
        · have := dropLit_length _ _ _ ‹dropLit (lit "alse") rest = some _›
          omega
        · have := parseString_length _ _ _ ‹parseString rest = .ok _ _›
          omega
        · have := skipWs_cons_length _ _ _ ‹skipWs rest = _ :: _›
          omega
        · have h1 := skipWs_cons_length _ _ _ ‹skipWs rest = _ :: _›
          have h2 := ihE _ _ _ ‹parseElements f _ = .ok _ _›
          simp only [List.length_cons] at h2
          omega
        · have := skipWs_cons_length _ _ _ ‹skipWs rest = _ :: _›
          omega
        · have h1 := skipWs_cons_length _ _ _ ‹skipWs rest = _ :: _›
          have h2 := ihM _ _ _ ‹parseMembers f _ = .ok _ _›
          simp only [List.length_cons] at h2
          omega
        · have := parseNumber_length _ _ _ h
          simp only [List.length_cons] at this
          omega
    · intro s vs r h
      rw [parseElements] at h
      split at h
      · rename_i v r1 hv
        have h1 := ihV _ _ _ hv
        split at h
        · cases h
        · rename_i c r2 hsk
          have h2 := skipWs_cons_length _ _ _ hsk
          repeat' split at h
          all_goals try cases h
          · omega
          · have := ihE _ _ _ ‹parseElements f _ = .ok _ _›
            omega
      · cases h
      · cases h
      · cases h
    · intro s ms r h
      rw [parseMembers] at h
      split at h
      · cases h
      · rename_i q s1 hsk
        have h0 := skipWs_cons_length _ _ _ hsk
        split at h
        · split at h
          · rename_i key s2 hkey
            have h1 := parseString_length _ _ _ hkey
            split at h
            · cases h
            · rename_i colon s3 hsk2
              have h2 := skipWs_cons_length _ _ _ hsk2
              split at h
              · split at h
                · rename_i v r1 hv
                  have h3 := ihV _ _ _ hv
                  split at h
                  · cases h
                  · rename_i c r2 hsk3
                    have h4 := skipWs_cons_length _ _ _ hsk3
                    repeat' split at h
                    all_goals try cases h
                    · omega
                    · have := ihM _ _ _ ‹parseMembers f _ = .ok _ _›
                      omega
                · cases h
                · cases h
                · cases h
              · cases h
          · cases h
          · cases h
          · cases h
        · cases h

theorem parse_fuel (f : Nat) :
    (∀ s, 2 * s.length + 1 ≤ f → parseValue f s ≠ .outOfFuel) ∧
    (∀ s, 2 * s.length + 2 ≤ f → parseElements f s ≠ .outOfFuel) ∧
    (∀ s, 2 * s.length + 2 ≤ f → parseMembers f s ≠ .outOfFuel) := by
  induction f with
  | zero =>
    refine ⟨?_, ?_, ?_⟩ <;> intro s hs <;> omega
  | succ f ih =>
    obtain ⟨ihV, ihE, ihM⟩ := ih
    refine ⟨?_, ?_, ?_⟩
    · intro s hs h
      rw [parseValue] at h
      split at h
      · cases h
      · rename_i u rest hsk
        have h0 := skipWs_cons_length s rest u hsk
        repeat' split at h
        all_goals try cases h
        · exact parseString_ne_outOfFuel _ ‹parseString rest = .outOfFuel›
        · have h1 := skipWs_cons_length _ _ _ ‹skipWs rest = _ :: _›
          refine ihE _ ?_ ‹parseElements f _ = .outOfFuel›
          simp only [List.length_cons]
          omega
        · have h1 := skipWs_cons_length _ _ _ ‹skipWs rest = _ :: _›
          refine ihM _ ?_ ‹parseMembers f _ = .outOfFuel›
          simp only [List.length_cons]
          omega
        · exact parseNumber_ne_outOfFuel _ h
    · intro s hs h
      rw [parseElements] at h
      split at h
      · rename_i v r1 hv
        have h1 := (parse_length f).1 _ _ _ hv
        split at h
        · cases h
        · rename_i c r2 hsk
          have h2 := skipWs_cons_length _ _ _ hsk
          repeat' split at h
          all_goals try cases h
          · exact ihE r2 (by omega) ‹parseElements f r2 = .outOfFuel›
      · cases h
      · cases h
      · exact ihV s (by omega) ‹parseValue f s = .outOfFuel›
    · intro s hs h
      rw [parseMembers] at h
      split at h
      · cases h
      · rename_i q s1 hsk
        have h0 := skipWs_cons_length _ _ _ hsk
        split at h
        · split at h
          · rename_i key s2 hkey
            have h1 := parseString_length _ _ _ hkey
            split at h
            · cases h
            · rename_i colon s3 hsk2
              have h2 := skipWs_cons_length _ _ _ hsk2
              split at h
              · split at h
                · rename_i v r1 hv
                  have h3 := (parse_length f).1 _ _ _ hv
                  split at h
                  · cases h
                  · rename_i c r2 hsk3
                    have h4 := skipWs_cons_length _ _ _ hsk3
                    repeat' split at h
                    all_goals try cases h
                    · exact ihM r2 (by omega) ‹parseMembers f r2 = .outOfFuel›
                · cases h
                · cases h
                · exact ihV s3 (by omega) ‹parseValue f s3 = .outOfFuel›
              · cases h
          · cases h
          · cases h
          · exact parseString_ne_outOfFuel _ ‹parseString _ = .outOfFuel›
        · cases h

theorem jsonParse_ne_outOfFuel (text : JSString) : jsonParse text ≠ .outOfFuel := by
  intro h
  unfold jsonParse at h
  split at h
  · split at h <;> cases h
  · cases h
  · cases h
  · exact (parse_fuel (2 * text.length + 2)).1 text (by omega)
      ‹parseValue (2 * text.length + 2) text = .outOfFuel›

/-! ## generateSendEvent -/

theorem eventContent_eq (publicKey : JSString) (now : Int) (message tag topic : JSString) :
    eventContent publicKey now message tag topic =
      [(lit "kind", .num 29333), (lit "content", .str message), (lit "pubkey", .str publicKey),
        (lit "created_at", .num (Int.fdiv now 1000)),
        (lit "tags", .arr [.arr [.str tag, .str topic]])] := rfl

theorem signedEvent_eq (publicKey : JSString) (now : Int) (message tag topic id sig : JSString) :
    signedEvent (eventContent publicKey now message tag topic) id sig =
      [(lit "kind", .num 29333), (lit "content", .str message), (lit "pubkey", .str publicKey),
        (lit "created_at", .num (Int.fdiv now 1000)),
        (lit "tags", .arr [.arr [.str tag, .str topic]]),
        (lit "id", .str id), (lit "sig", .str sig)] := rfl

theorem generateMessageHash_obj (digest : JSString → List Nat) (ps : List (JSString × Val)) :
    generateMessageHash digest (.obj ps) =
      .ok (bufferToHex (digest ((jsonStringify (.arr [.num 0, getProp ps (lit "pubkey"),
        getProp ps (lit "created_at"), getProp ps (lit "kind"), getProp ps (lit "tags"),
        getProp ps (lit "content")])).getD []))) := rfl

theorem getProp_signedEvent (publicKey : JSString) (now : Int)
    (message tag topic id sig : JSString) :
    getProp (signedEvent (eventContent publicKey now message tag topic) id sig) (lit "pubkey") =
      .str publicKey ∧
    getProp (signedEvent (eventContent publicKey now message tag topic) id sig)
      (lit "created_at") = .num (Int.fdiv now 1000) ∧
    getProp (signedEvent (eventContent publicKey now message tag topic) id sig) (lit "kind") =
      .num 29333 ∧
    getProp (signedEvent (eventContent publicKey now message tag topic) id sig) (lit "tags") =
      .arr [.arr [.str tag, .str topic]] ∧
    getProp (signedEvent (eventContent publicKey now message tag topic) id sig)
      (lit "content") = .str message ∧
    getProp (signedEvent (eventContent publicKey now message tag topic) id sig) (lit "id") =
      .str id := by
  rw [signedEvent_eq]
  simp [getProp, lit]

theorem getProp_eventContent (publicKey : JSString) (now : Int) (message tag topic : JSString) :
    getProp (eventContent publicKey now message tag topic) (lit "pubkey") = .str publicKey ∧
    getProp (eventContent publicKey now message tag topic) (lit "created_at") =
      .num (Int.fdiv now 1000) ∧
    getProp (eventContent publicKey now message tag topic) (lit "kind") = .num 29333 ∧
    getProp (eventContent publicKey now message tag topic) (lit "tags") =
      .arr [.arr [.str tag, .str topic]] ∧
    getProp (eventContent publicKey now message tag topic) (lit "content") = .str message := by
  rw [eventContent_eq]
  simp [getProp, lit]

theorem generateMessageHash_signed (digest : JSString → List Nat) (publicKey : JSString)
    (now : Int) (message tag topic id sig : JSString) :
    generateMessageHash digest
        (.obj (signedEvent (eventContent publicKey now message tag topic) id sig)) =
      generateMessageHash digest (.obj (eventContent publicKey now message tag topic)) := by
  obtain ⟨a1, a2, a3, a4, a5, _⟩ := getProp_signedEvent publicKey now message tag topic id sig
  obtain ⟨b1, b2, b3, b4, b5⟩ := getProp_eventContent publicKey now message tag topic
  rw [generateMessageHash_obj, generateMessageHash_obj, a1, a2, a3, a4, a5, b1, b2, b3, b4, b5]

theorem generateSendEvent_eq (digest sign : JSString → List Nat) (publicKey : JSString)
    (now : Int) (message tag topic : JSString) :
    generateSendEvent digest sign publicKey now message tag topic =
      .ok ((jsonStringify (.arr [.str (lit "EVENT"),
        .obj (signedEvent (eventContent publicKey now message tag topic)
          (bufferToHex (digest (canonicalSerialization publicKey now message tag topic)))
          (signMessage sign
            (bufferToHex (digest (canonicalSerialization publicKey now message tag topic)))))])).getD
        []) := by
  obtain ⟨b1, b2, b3, b4, b5⟩ := getProp_eventContent publicKey now message tag topic
  simp only [generateSendEvent, generateMessageHash_obj, b1, b2, b3, b4, b5]
  rfl

theorem signedEvent_plain (publicKey : JSString) (now : Int)
    (message tag topic id sig : JSString) (hnow : now.natAbs ≤ 8640000000000000) :
    (Val.arr [.str (lit "EVENT"),
      .obj (signedEvent (eventContent publicKey now message tag topic) id sig)]).Plain := by
  have hdiv : (Int.fdiv now 1000).natAbs ≤ maxSafe := by
    rw [Int.fdiv_eq_ediv _ (by decide)]
    unfold maxSafe
    omega
  have hkind : (29333 : Int).natAbs ≤ maxSafe := by decide
  rw [signedEvent_eq]
  simp only [Val.Plain, PlainList, PlainProps, and_true, true_and, hdiv, hkind]
  simp [lit]

/-- C8: for a clock value in the range of `Date.now()`, `generateSendEvent` returns a text that
`JSON.parse` decodes to `['EVENT', event]`; the fields `pubkey`, `created_at`, `kind`, `tags` and
`content` of the parsed event are those the event was built from, its `id` is the hash of their
canonical serialization, and `generateMessageHash` recomputed on the parsed event returns that
`id`. -/
theorem generateSendEvent_hash_roundtrip (digest sign : JSString → List Nat)
    (publicKey : JSString) (now : Int) (message tag topic : JSString)
    (hnow : now.natAbs ≤ 8640000000000000) :
    ∃ text parsed ev,
      generateSendEvent digest sign publicKey now message tag topic = .ok text ∧
      jsonParse text = .ok parsed [] ∧
      parsed.index 0 = .ok (.str (lit "EVENT")) ∧
      parsed.index 1 = .ok ev ∧
      ev.field (lit "pubkey") = .ok (.str publicKey) ∧
      ev.field (lit "created_at") = .ok (.num (Int.fdiv now 1000)) ∧
      ev.field (lit "kind") = .ok (.num 29333) ∧
      ev.field (lit "tags") = .ok (.arr [.arr [.str tag, .str topic]]) ∧
      ev.field (lit "content") = .ok (.str message) ∧
      ev.field (lit "id") =
        .ok (.str (bufferToHex (digest (canonicalSerialization publicKey now message tag topic)))) ∧
      generateMessageHash digest ev =
        .ok (bufferToHex (digest (canonicalSerialization publicKey now message tag topic))) := by
  have hplain := signedEvent_plain publicKey now message tag topic
    (bufferToHex (digest (canonicalSerialization publicKey now message tag topic)))
    (signMessage sign (bufferToHex (digest (canonicalSerialization publicKey now message tag topic))))
    hnow
  obtain ⟨text, htext⟩ := serializeProperty_plain _ hplain
  obtain ⟨a1, a2, a3, a4, a5, a6⟩ := getProp_signedEvent publicKey now message tag topic
    (bufferToHex (digest (canonicalSerialization publicKey now message tag topic)))
    (signMessage sign (bufferToHex (digest (canonicalSerialization publicKey now message tag topic))))
  refine ⟨text, Val.arr [.str (lit "EVENT"),
      .obj (signedEvent (eventContent publicKey now message tag topic)
        (bufferToHex (digest (canonicalSerialization publicKey now message tag topic)))
        (signMessage sign
          (bufferToHex (digest (canonicalSerialization publicKey now message tag topic)))))],
    Val.obj (signedEvent (eventContent publicKey now message tag topic)
        (bufferToHex (digest (canonicalSerialization publicKey now message tag topic)))
        (signMessage sign
          (bufferToHex (digest (canonicalSerialization publicKey now message tag topic))))),
    ?_, jsonParse_stringify _ text hplain htext, rfl, rfl, ?_, ?_, ?_, ?_, ?_, ?_, ?_⟩
  · rw [generateSendEvent_eq]
    unfold jsonStringify
    rw [htext]
    rfl
  · simp only [Val.field, a1]
  · simp only [Val.field, a2]
  · simp only [Val.field, a3]
  · simp only [Val.field, a4]
  · simp only [Val.field, a5]
  · simp only [Val.field, a6]
  · rw [generateMessageHash_obj, a1, a2, a3, a4, a5]
    rfl

/-- The round trip of the event id for the message `hello` under the tag `t` and the topic
`demo`. -/
theorem generateSendEvent_hash_roundtrip_witness :
    (1700000000123 : Int).natAbs ≤ 8640000000000000 ∧
    ∃ text parsed ev,
      generateSendEvent sampleDigest sampleSign (lit "ab12") 1700000000123 (lit "hello")
        (lit "t") (lit "demo") = .ok text ∧
      jsonParse text = .ok parsed [] ∧
      parsed.index 0 = .ok (.str (lit "EVENT")) ∧
      parsed.index 1 = .ok ev ∧
      ev.field (lit "pubkey") = .ok (.str (lit "ab12")) ∧
      ev.field (lit "created_at") = .ok (.num (Int.fdiv 1700000000123 1000)) ∧
      ev.field (lit "kind") = .ok (.num 29333) ∧
      ev.field (lit "tags") = .ok (.arr [.arr [.str (lit "t"), .str (lit "demo")]]) ∧
      ev.field (lit "content") = .ok (.str (lit "hello")) ∧
      ev.field (lit "id") =
        .ok (.str (bufferToHex (sampleDigest
          (canonicalSerialization (lit "ab12") 1700000000123 (lit "hello") (lit "t")
            (lit "demo"))))) ∧
      generateMessageHash sampleDigest ev =
        .ok (bufferToHex (sampleDigest
          (canonicalSerialization (lit "ab12") 1700000000123 (lit "hello") (lit "t")
            (lit "demo")))) :=
  ⟨by decide,
    generateSendEvent_hash_roundtrip sampleDigest sampleSign (lit "ab12") 1700000000123
      (lit "hello") (lit "t") (lit "demo") (by decide)⟩

/-! ## socket.onmessage -/

theorem generateMessageHash_is_hex (digest : JSString → List Nat) (content : Val)
    (id : JSString) (h : generateMessageHash digest content = .ok id) :
    ∃ t, id = bufferToHex (digest t) := by
  cases content with
  | undefined => cases h
  | null => cases h
  | bool b => cases h; exact ⟨_, rfl⟩
  | num n => cases h; exact ⟨_, rfl⟩
  | str t => cases h; exact ⟨_, rfl⟩
  | arr xs => cases h; exact ⟨_, rfl⟩
  | obj ps => rw [generateMessageHash_obj] at h; cases h; exact ⟨_, rfl⟩

/-- C10: for a sequence `b` of bytes, `bufferToHex(b)` has length `2 * b.length`, consists of
the characters `0`-`9` and `a`-`f`, and has at positions `2i`, `2i+1` the two base-16 digits of
`b[i]`, high digit first; two sequences of bytes with the same text are the same; and the id
`generateMessageHash` returns, for a digest of 32 bytes, is 64 such characters. -/
theorem bufferToHex_lowercase_pairs (b : List Nat) (hb : ∀ c ∈ b, c < 256) :
    (bufferToHex b).length = 2 * b.length ∧
    (∀ u ∈ bufferToHex b, IsLowerHex u) ∧
    (∀ i (hi : i < b.length),
      (bufferToHex b)[2 * i]? = some (digitUnit (b[i] / 16)) ∧
      (bufferToHex b)[2 * i + 1]? = some (digitUnit (b[i] % 16)) ∧
      16 * (b[i] / 16) + b[i] % 16 = b[i] ∧ b[i] / 16 < 16 ∧ b[i] % 16 < 16) ∧
    (∀ b2 : List Nat, (∀ c ∈ b2, c < 256) → bufferToHex b = bufferToHex b2 → b = b2) ∧
    (∀ (digest : JSString → List Nat) (content : Val) (id : JSString),
      (∀ t, (digest t).length = 32 ∧ ∀ c ∈ digest t, c < 256) →
      generateMessageHash digest content = .ok id →
      id.length = 64 ∧ ∀ u ∈ id, IsLowerHex u) := by
  refine ⟨?_, ?_, ?_, ?_, ?_⟩
  · rw [bufferToHex_bytes b hb, hexPairs_length]
  · rw [bufferToHex_bytes b hb]
    exact hexPairs_lowerHex b hb
  · intro i hi
    rw [bufferToHex_bytes b hb]
    have hlt : b[i] < 256 := hb _ (List.getElem_mem hi)
    obtain ⟨h1, h2⟩ := hexPairs_get b i hi
    exact ⟨h1, h2, by omega, by omega, by omega⟩
  · intro b2 hb2 e
    rw [bufferToHex_bytes b hb, bufferToHex_bytes b2 hb2] at e
    exact hexPairs_inj b b2 hb hb2 e
  · intro digest content id hd h
    obtain ⟨t, rfl⟩ := generateMessageHash_is_hex digest content id h
    obtain ⟨h32, hbytes⟩ := hd t
    rw [bufferToHex_bytes _ hbytes]
    refine ⟨?_, hexPairs_lowerHex _ hbytes⟩
    rw [hexPairs_length, h32]

/-- The bytes 0, 255, 16, 9 give the text `00ff1009`. -/
theorem bufferToHex_lowercase_pairs_witness :
    (∀ c ∈ [0, 255, 16, 9], c < 256) ∧
    bufferToHex [0, 255, 16, 9] = lit "00ff1009" ∧
    (bufferToHex [0, 255, 16, 9]).length = 2 * [0, 255, 16, 9].length :=
  ⟨by decide, by decide, (bufferToHex_lowercase_pairs [0, 255, 16, 9] (by decide)).1⟩

end NostrDht

